import Mathlib

/-!
Verification of the chatWebScraper snippet-scraping pipeline.

This file gives a shallow embedding, in Lean 4, of the pure classification,
extraction and record-assembly core of the Python scrapers
(`scrape_all_scripts.py`, `scrape_client_scripts.py`,
`scrape_script_includes.py`, `scrape_sp_widgets.py`), and proves the claims
C1-C10 about that core.

Embedding conventions:
* Python `str` values are Lean `String`s; most character work happens on
  `List Char` (`String.toList`), which matches Python's per-code-point view
  for the ASCII data these scrapers handle.
* Python regular-expression searches are embedded as explicit character
  scanners that implement the exact pattern used at each call site
  (left-to-right scan, first match wins, greedy classes, the backtracking
  between a greedy `\s*` and a following capture class).
* Python dicts are association lists in insertion order; `dictGet` /
  `dictSet` mirror `d[k]` / `d[k] = v` (update in place, insert at the end).
* Fallible Python code (statements that can raise `KeyError` /
  `AttributeError`) is embedded with `Option`: `none` is an uncaught
  exception.
* `sorted` / `Counter.most_common` are stable sorts; they are embedded with
  `List.insertionSort`, which is stable for the total preorders used here
  and hence extensionally equal to CPython's Timsort at these call sites.
-/

/-! ### Python string primitives -/

/-- The whitespace characters of Python `str.strip` / regex `\s`
(ASCII portion: space, tab, newline, carriage return, vertical tab,
form feed). -/
def isPySpace (c : Char) : Bool :=
  c = ' ' || c = '\t' || c = '\n' || c = '\r' || c = '\x0b' || c = '\x0c'

/-- Python `str.strip()` on a character list: drop whitespace from both ends. -/
def pyStripL (l : List Char) : List Char :=
  ((l.dropWhile isPySpace).reverse.dropWhile isPySpace).reverse

/-- Python `value.strip()`. -/
def pyStrip (s : String) : String :=
  String.mk (pyStripL s.toList)

/-- Python `value.lower()` (ASCII case folding, which is all the scraped
data uses). -/
def pyLower (s : String) : String :=
  String.mk (s.toList.map Char.toLower)

/-- Substring test on character lists: `hasSub s sub` is Python
`sub in s` (`true` for the empty needle). -/
def hasSub (sub : List Char) : List Char → Bool
  | [] => sub.isEmpty
  | c :: t => sub.isPrefixOf (c :: t) || hasSub sub t

/-- Python `sub in s` for strings. -/
def strIn (sub s : String) : Bool :=
  hasSub sub.toList s.toList

/-- Python `s.startswith(pre)`. -/
def strStartsWith (pre s : String) : Bool :=
  pre.toList.isPrefixOf s.toList

/-- Python `s.endswith(suf)`. -/
def strEndsWith (suf s : String) : Bool :=
  suf.toList.reverse.isPrefixOf s.toList.reverse

/-- Python slicing `s[n:]` (by code points). -/
def strDrop (s : String) (n : Nat) : String :=
  String.mk (s.toList.drop n)

/-- Python `s.split("/")`. -/
def splitSlash (s : String) : List String :=
  (s.toList.splitOn '/').map String.mk

/-- Python `os.path.basename`: the part after the last `/`. -/
def pyBasename (p : String) : String :=
  String.mk (p.toList.reverse.takeWhile (· ≠ '/')).reverse

/-- The extension part of `os.path.splitext`: the suffix of the basename
from its last dot, unless every character before that dot is itself a dot
(so `.hidden` has no extension), in which case the extension is empty. -/
def extOf (p : String) : String :=
  let b := (p.toList.reverse.takeWhile (· ≠ '/')).reverse
  let after := b.reverse.takeWhile (· ≠ '.')
  if after.length = b.length then ""
  else if (b.take (b.length - (after.length + 1))).any (· ≠ '.') then
    String.mk ('.' :: after.reverse)
  else ""

/-- The root part of `os.path.splitext` (the input minus `extOf`). -/
def rootOf (p : String) : String :=
  String.mk (p.toList.take (p.toList.length - (extOf p).toList.length))

/-- Python `str.splitlines()` for `\n` / `\r` / `\r\n` terminators:
no entry for a trailing terminator, and `"" → []`. -/
def splitLinesAux : List Char → List Char → List String
  | [], acc => if acc.isEmpty then [] else [String.mk acc.reverse]
  | '\r' :: '\n' :: rest, acc => String.mk acc.reverse :: splitLinesAux rest []
  | '\r' :: rest, acc => String.mk acc.reverse :: splitLinesAux rest []
  | '\n' :: rest, acc => String.mk acc.reverse :: splitLinesAux rest []
  | c :: rest, acc => splitLinesAux rest (c :: acc)

/-- Python `md.splitlines()`. -/
def pySplitLines (s : String) : List String :=
  splitLinesAux s.toList []

/-- Python `sep.join(xs)`. -/
def pyJoin (sep : String) (xs : List String) : String :=
  match xs with
  | [] => ""
  | x :: rest => rest.foldl (fun a b => a ++ sep ++ b) x

/-- Python `re.sub(r"[^A-Za-z0-9]+", "", s)`: keep only ASCII alphanumerics. -/
def keepAlnum (s : String) : String :=
  String.mk (s.toList.filter Char.isAlphanum)

/-- Python `s or t` on strings (first operand if truthy). -/
def pyOr (a b : String) : String :=
  if a ≠ "" then a else b

/-- Regex word character (`\w` over ASCII): alphanumeric or underscore. -/
def isWordChar (c : Char) : Bool :=
  c.isAlphanum || c = '_'

/-- A `\b` boundary holds before a word-character position when the
previous character (if any) is not a word character. -/
def wordBoundaryBefore (prev : Option Char) : Bool :=
  match prev with
  | none => true
  | some p => !isWordChar p

/-- The two string-quote characters accepted by the `<q>` regex class. -/
def isQuoteChar (c : Char) : Bool :=
  c = Char.ofNat 39 || c = Char.ofNat 34

/-- Opening brace character (written by code point to keep string literals
brace-free). -/
def lbrace : Char := Char.ofNat 123

/-- Closing brace character. -/
def rbrace : Char := Char.ofNat 125

/-! ### Boolean normalization (`normalize_bool` in `scrape_all_scripts.py`,
`as_bool` in `scrape_script_includes.py`) -/

/-- The truthy token set shared by both normalizers. -/
def TRUTHY_TOKENS : List String := ["true", "yes", "y", "1", "enabled", "checked"]

/-- The falsy token set shared by both normalizers. -/
def FALSY_TOKENS : List String := ["false", "no", "n", "0", "disabled", "unchecked"]

/-- Embeds `normalize_bool` from `scrape_all_scripts.py`: canonicalize recognized
tokens, otherwise return the trimmed input. -/
def normalize_bool (value : String) : String :=
  let low := pyLower (pyStrip value)
  if low ∈ TRUTHY_TOKENS then "true"
  else if low ∈ FALSY_TOKENS then "false"
  else pyStrip value

/-- Embeds `as_bool` from `scrape_script_includes.py`: canonicalize recognized
tokens, otherwise (including empty/falsy input) return `""`. -/
def as_bool (val : String) : String :=
  if val = "" then ""
  else
    let v := pyLower (pyStrip val)
    if v ∈ TRUTHY_TOKENS then "true"
    else if v ∈ FALSY_TOKENS then "false"
    else ""

/-! ### Field-name detection from code

`parse_fields_from_code` exists in two variants. `scrape_all_scripts.py`
scans, per method `m`, for `\bg_form\.m\(\s*<q>([A-Za-z0-9_\.]+)<q>`
with `re.findall`, then orders `Counter(tokens).items()` with
`sorted(..., key=lambda item: (-item[1], item[0]))`.
`scrape_client_scripts.py` scans one alternation regex
`g_form\.(?:m1|...|mk)\(\s*<q>([A-Za-z0-9_]+)<q>` in code order with
`finditer` and ranks with `Counter(candidates).most_common()`. -/

/-- Characters of the capture class `[A-Za-z0-9_\.]` (unified scraper). -/
def isFieldChar (c : Char) : Bool :=
  c.isAlphanum || c = '_' || c = '.'

/-- Characters of the capture class `[A-Za-z0-9_]` (client-scripts scraper). -/
def isFieldCharCS (c : Char) : Bool :=
  c.isAlphanum || c = '_'

/-- Try the tail of the `g_form` pattern after the literal
`g_form.<method>(` has been consumed: `\s*<q>(<cls>+)<q>`.
Returns the capture, the last consumed character, and the rest. -/
def gfTail (cls : Char → Bool) (rest : List Char) :
    Option (List Char × Char × List Char) :=
  let r2 := rest.dropWhile isPySpace
  match r2 with
  | q :: r3 =>
    if isQuoteChar q then
      let name := r3.takeWhile cls
      if name.isEmpty then none
      else
        match r3.drop name.length with
        | q2 :: r5 => if isQuoteChar q2 then some (name, q2, r5) else none
        | [] => none
    else none
  | [] => none

/-- Try one `\bg_form\.<method>\(\s*<q>([A-Za-z0-9_\.]+)<q>` match at the
current position (the `\b` test against the previous character is done by
the caller). -/
def gfTryAt (method : List Char) (s : List Char) :
    Option (List Char × Char × List Char) :=
  let pat := "g_form.".toList ++ method ++ ['(']
  if pat.isPrefixOf s then gfTail isFieldChar (s.drop pat.length) else none

/-- The `re.findall` loop for one method pattern: scan left to right,
non-overlapping, word boundary before `g_form`. The fuel starts at
`length + 1`; every step consumes at least one character. -/
def gfFindAllAux (method : List Char) : Nat → Option Char → List Char → List (List Char)
  | 0, _, _ => []
  | _, _, [] => []
  | Nat.succ fuel, prev, c :: rest =>
    if wordBoundaryBefore prev then
      match gfTryAt method (c :: rest) with
      | some (name, lastc, after) => name :: gfFindAllAux method fuel (some lastc) after
      | none => gfFindAllAux method fuel (some c) rest
    else gfFindAllAux method fuel (some c) rest

/-- All captures of the unified scraper's pattern for one method. -/
def gfFindAll (method : String) (js : String) : List String :=
  (gfFindAllAux method.toList (js.toList.length + 1) none js.toList).map String.mk

/-- Embeds `GF_METHODS` of `scrape_all_scripts.py`. -/
def GF_METHODS : List String :=
  ["getValue", "getControl", "setValue", "setDisplay", "setVisible",
   "setMandatory", "setReadOnly", "showFieldMsg", "clearValue",
   "hideAllSections", "addInfoMessage", "addErrorMessage"]

/-- The token list built by the `for method in GF_METHODS:
tokens.extend(re.findall(...))` loop. -/
def gfTokens (js : String) : List String :=
  GF_METHODS.foldl (fun acc m => acc ++ gfFindAll m js) []

/-- Helper for `firstOccs`: drop elements already seen. -/
def firstOccsAux (seen : List String) : List String → List String
  | [] => []
  | a :: t =>
    if a ∈ seen then firstOccsAux seen t
    else a :: firstOccsAux (a :: seen) t

/-- The keys of a Python `Counter` built from `l`, in first-occurrence
order. -/
def firstOccs (l : List String) : List String :=
  firstOccsAux [] l

/-- Python `Counter(l).items()`: first-occurrence-ordered keys paired with
occurrence counts. -/
def counterItems (l : List String) : List (String × Nat) :=
  (firstOccs l).map (fun n => (n, l.count n))

/-- The order used by `sorted(freq.items(), key=lambda item:
(-item[1], item[0]))`: descending count, ties by ascending name
(Python compares strings lexicographically by code point, i.e. as
their character lists). -/
def pyKeyLe (a b : String × Nat) : Prop :=
  b.2 < a.2 ∨ (a.2 = b.2 ∧ a.1.toList ≤ b.1.toList)

instance : DecidableRel pyKeyLe := fun a b =>
  decidable_of_iff (b.2 < a.2 ∨ (a.2 = b.2 ∧ a.1.toList ≤ b.1.toList)) Iff.rfl

instance : IsTotal (String × Nat) pyKeyLe where
  total a b := by
    rcases Nat.lt_trichotomy a.2 b.2 with h | h | h
    · exact Or.inr (Or.inl h)
    · rcases le_total a.1.toList b.1.toList with h1 | h1
      · exact Or.inl (Or.inr ⟨h, h1⟩)
      · exact Or.inr (Or.inr ⟨h.symm, h1⟩)
    · exact Or.inl (Or.inl h)

instance : IsTrans (String × Nat) pyKeyLe where
  trans a b c hab hbc := by
    rcases hab with h1 | ⟨e1, l1⟩
    · rcases hbc with h2 | ⟨e2, _⟩
      · exact Or.inl (h2.trans h1)
      · exact Or.inl (e2 ▸ h1)
    · rcases hbc with h2 | ⟨e2, l2⟩
      · exact Or.inl (e1 ▸ h2)
      · exact Or.inr ⟨e1.trans e2, l1.trans l2⟩

/-- Embeds `parse_fields_from_code` of `scrape_all_scripts.py`. The Python `sorted`
is stable, but the sort key `(-count, name)` is injective on the
distinct-name items of a `Counter`, so any sorting algorithm produces the
same list; `List.insertionSort` is used. -/
def parse_fields_from_code (js : String) : List String :=
  let tokens := gfTokens js
  if tokens.isEmpty then []
  else (List.insertionSort pyKeyLe (counterItems tokens)).map Prod.fst

/-- Embeds `GF_METHODS` of `scrape_client_scripts.py`. -/
def GF_METHODS_CS : List String :=
  ["getValue", "getControl", "setValue", "setDisplay", "setVisible",
   "setMandatory", "setReadOnly", "showFieldMsg", "clearValue",
   "addOption", "removeOption", "addErrorMessage", "addInfoMessage",
   "clearOptions", "disableAttachment"]

/-- One attempt of the client-scripts alternation regex at the current
position: `g_form\.` then the first alternative whose full tail matches
(regex alternation backtracks into later alternatives). No `\b` here. -/
def csTryAt (s : List Char) : Option (List Char × List Char) :=
  if "g_form.".toList.isPrefixOf s then
    let rest := s.drop 7
    (GF_METHODS_CS.firstM (fun m =>
      let pat := m.toList ++ ['(']
      if pat.isPrefixOf rest then
        match gfTail isFieldCharCS (rest.drop pat.length) with
        | some (name, _, after) => some (name, after)
        | none => none
      else none))
  else none

/-- The `finditer` loop of the client-scripts pattern (code order,
non-overlapping). -/
def csFindAllAux : Nat → List Char → List (List Char)
  | 0, _ => []
  | _, [] => []
  | Nat.succ fuel, c :: rest =>
    match csTryAt (c :: rest) with
    | some (name, after) => name :: csFindAllAux fuel after
    | none => csFindAllAux fuel rest

/-- The `candidates` list of `scrape_client_scripts.parse_fields_from_code`. -/
def csTokens (js : String) : List String :=
  (csFindAllAux (js.toList.length + 1) js.toList).map String.mk

/-- Python `Counter.most_common()`: a stable sort of the counter items by
descending count (CPython sorts with `reverse=True`, which preserves the
insertion order of equal-count items; `List.insertionSort` with this
relation is stable in the same way). -/
def most_common (items : List (String × Nat)) : List (String × Nat) :=
  List.insertionSort (fun a b => b.2 ≤ a.2) items

instance : IsTotal (String × Nat) (fun a b : String × Nat => b.2 ≤ a.2) :=
  ⟨fun a b => Nat.le_total b.2 a.2⟩

instance : IsTrans (String × Nat) (fun a b : String × Nat => b.2 ≤ a.2) :=
  ⟨fun _ _ _ h1 h2 => h2.trans h1⟩

/-- Embeds `parse_fields_from_code` of `scrape_client_scripts.py`. -/
def parse_fields_from_code_cs (js : String) : List String :=
  let candidates := csTokens js
  if candidates.isEmpty then []
  else (most_common (counterItems candidates)).map Prod.fst

/-! ### Regex-style searches used by the README / code parsers

`re.search` scans positions left to right and succeeds at the first
position where the whole pattern matches; `search` below does the same,
handing each attempt the previous character so `\b` can be tested. -/

/-- Generic left-to-right scan: try `att` at every suffix, tracking the
previous character. -/
def searchAux (att : Option Char → List Char → Option α) :
    Nat → Option Char → List Char → Option α
  | 0, _, _ => none
  | Nat.succ fuel, prev, s =>
    match att prev s with
    | some r => some r
    | none =>
      match s with
      | [] => none
      | c :: rest => searchAux att fuel (some c) rest

/-- Python `re.search`: first position (if any) where the attempt succeeds. -/
def search (att : Option Char → List Char → Option α) (s : List Char) : Option α :=
  searchAux att (s.length + 1) none s

/-- Case-insensitive literal match (the literal is given lowercase);
returns the rest on success. -/
def litCI : List Char → List Char → Option (List Char)
  | [], s => some s
  | _ :: _, [] => none
  | c :: cs, x :: xs => if x.toLower = c then litCI cs xs else none

/-- Case-sensitive literal match; returns the rest on success. -/
def litCS (pat s : List Char) : Option (List Char) :=
  if pat.isPrefixOf s then some (s.drop pat.length) else none

/-- Match a sequence of case-insensitive words separated by `\s*`
(used for labels such as `source\s*table`). -/
def matchSeq : List String → List Char → Option (List Char)
  | [], s => some s
  | w :: ws, s =>
    match litCI (pyLower w).toList s with
    | none => none
    | some r => if ws.isEmpty then some r else matchSeq ws (r.dropWhile isPySpace)

/-- The backtracking interaction of a greedy `\s*` followed by a greedy
one-or-more capture class `(<cls>+)`: try the longest whitespace run
first, then shorter ones, and capture greedily from the first position
whose head is in the class. `k` starts at the whitespace-run length. -/
def wsCapAux (cls : Char → Bool) (r : List Char) : Nat → Option (List Char)
  | 0 =>
    match r with
    | c :: _ => if cls c then some (r.takeWhile cls) else none
    | [] => none
  | Nat.succ k =>
    match r.drop (Nat.succ k) with
    | c :: _ =>
      if cls c then some ((r.drop (Nat.succ k)).takeWhile cls)
      else wsCapAux cls r k
    | [] => wsCapAux cls r k

/-- Pattern `\s*(<cls>+)` with regex backtracking semantics. -/
def wsCap (cls : Char → Bool) (r : List Char) : Option (List Char) :=
  wsCapAux cls r (r.takeWhile isPySpace).length

/-- Pattern `\s*[:\-]` followed by `\s*(<cls>+)`: the label/value separator shared
by all README field patterns. -/
def colonDashCap (cls : Char → Bool) (r : List Char) : Option (List Char) :=
  match r.dropWhile isPySpace with
  | c :: r2 => if c = ':' ∨ c = '-' then wsCap cls r2 else none
  | [] => none

/-- Attempt `\b<label words>\s*[:\-]\s*(<cls>+)` at the current position. -/
def tryLabel (words : List String) (cls : Char → Bool)
    (prev : Option Char) (s : List Char) : Option (List Char) :=
  if wordBoundaryBefore prev then
    match matchSeq words s with
    | some r => colonDashCap cls r
    | none => none
  else none

/-- Embeds `first_match` for one labeled pattern: search, then
`match.group(1).strip()`. Returns `""` when there is no match. -/
def labeledCapture (words : List String) (cls : Char → Bool) (md : String) : String :=
  match search (tryLabel words cls) md.toList with
  | some cap => pyStrip (String.mk cap)
  | none => ""

/-- Any character but a newline: the `.` class of `(.+)`. -/
def isDotChar (c : Char) : Bool := c ≠ '\n'

/-- The capture class `[A-Za-z0-9_\. ]` of the table patterns. -/
def isTableChar (c : Char) : Bool :=
  c.isAlphanum || c = '_' || c = '.' || c = ' '

/-- The capture class `[A-Za-z_]` of the type/event pattern. -/
def isEventChar (c : Char) : Bool :=
  c.isAlpha || c = '_'

/-! ### `parse_description` (`scrape_all_scripts.py`) -/

/-- The alternatives of the metadata-label regex that the description
line loop skips (`re.match` is anchored at the line start). -/
def descLabelAlternatives : List (List String) :=
  [["name"], ["table"], ["applies"], ["type"], ["event"], ["ui"], ["scope"],
   ["field"], ["condition"], ["when"], ["action"], ["onclick"],
   ["source", "table"], ["target", "table"], ["coalesce"],
   ["client", "callable"]]

/-- Anchored test for `^(<label>)\s*[:\-]` (case-insensitive). -/
def isLabelLine (line : List Char) : Bool :=
  descLabelAlternatives.any (fun alt =>
    match matchSeq alt line with
    | some r =>
      match r.dropWhile isPySpace with
      | c :: _ => c = ':' ∨ c = '-'
      | [] => false
    | none => false)

/-- The fallback loop of `parse_description`: first stripped line that is
non-empty, not a heading, and not a metadata label line. -/
def descFromLines : List String → String
  | [] => ""
  | line :: rest =>
    let str := pyStrip line
    if str = "" then descFromLines rest
    else if strStartsWith "#" str then descFromLines rest
    else if isLabelLine str.toList then descFromLines rest
    else str

/-- Embeds `parse_description` from `scrape_all_scripts.py`. -/
def parse_description (md : String) : String :=
  let desc := labeledCapture ["description"] isDotChar md
  if desc ≠ "" then desc
  else descFromLines (pySplitLines md)

/-! ### `parse_event` (`scrape_all_scripts.py`) -/

/-- Attempt `\b<token>\b` (case-insensitive) at the current position. -/
def tryWordCI (tok : String) (prev : Option Char) (s : List Char) : Option Unit :=
  if wordBoundaryBefore prev then
    match litCI (pyLower tok).toList s with
    | some r =>
      match r with
      | c :: _ => if isWordChar c then none else some ()
      | [] => some ()
    | none => none
  else none

/-- Python `re.search` of a word-bounded case-insensitive token, as a Bool. -/
def searchWordCI (tok : String) (md : String) : Bool :=
  (search (tryWordCI tok) md.toList).isSome

/-- Attempt `\b(type|event)\s*[:\-]\s*([A-Za-z_]+)` at the current
position (regex alternation backtracks into `event` when the rest of the
pattern fails after `type`). -/
def tryTypeEvent (prev : Option Char) (s : List Char) : Option (List Char) :=
  if wordBoundaryBefore prev then
    let viaType :=
      match litCI "type".toList s with
      | some r => colonDashCap isEventChar r
      | none => none
    match viaType with
    | some cap => some cap
    | none =>
      match litCI "event".toList s with
      | some r => colonDashCap isEventChar r
      | none => none
  else none

/-- Embeds `parse_event` from `scrape_all_scripts.py`: the first of the known
trigger tokens found in the text, else the capture of the
`(type|event)` pattern, else `""`. -/
def parse_event (md : String) : String :=
  match ["onChange", "onLoad", "onSubmit", "onCellEdit", "onValueChange"].find?
      (fun tok => searchWordCI tok md) with
  | some tok => tok
  | none =>
    match search tryTypeEvent md.toList with
    | some cap => String.mk cap
    | none => ""

/-! ### `parse_table_from_readme` / `parse_table_from_code`
(`scrape_all_scripts.py`) -/

/-- Attempt `\bon\s+table\s*[:\-]\s*(<table chars>+)` (the one label
pattern that requires at least one space inside the label). -/
def tryOnTable (prev : Option Char) (s : List Char) : Option (List Char) :=
  if wordBoundaryBefore prev then
    match litCI "on".toList s with
    | some r =>
      match r with
      | c :: _ =>
        if isPySpace c then
          match litCI "table".toList (r.dropWhile isPySpace) with
          | some r2 => colonDashCap isTableChar r2
          | none => none
        else none
      | [] => none
    | none => none
  else none

/-- Embeds `parse_table_from_readme`: the `TABLE_PATTERNS` cascade (`table`,
`applies to`, `on table`), first matching pattern wins, capture stripped. -/
def parse_table_from_readme (md : String) : String :=
  let p1 := labeledCapture ["table"] isTableChar md
  match search (tryLabel ["table"] isTableChar) md.toList with
  | some _ => p1
  | none =>
    match search (tryLabel ["applies", "to"] isTableChar) md.toList with
    | some cap => pyStrip (String.mk cap)
    | none =>
      match search tryOnTable md.toList with
      | some cap => pyStrip (String.mk cap)
      | none => ""

/-- Pattern `<q>(<cls>+)<q>` with no whitespace allowed before the quote. -/
def quotedCapture (cls : Char → Bool) (r : List Char) : Option (List Char × List Char) :=
  match r with
  | q :: r2 =>
    if isQuoteChar q then
      let name := r2.takeWhile cls
      if name.isEmpty then none
      else
        match r2.drop name.length with
        | q2 :: r3 => if isQuoteChar q2 then some (name, r3) else none
        | [] => none
    else none
  | [] => none

/-- Attempt pattern 1 of `TABLE_CODE_PATTERNS`:
`current\s*=\s*new\s+GlideRecord\(<q>([A-Za-z0-9_\.]+)<q>\)`
(case-insensitive, no `\b`). -/
def tryTableCode1 (_ : Option Char) (s : List Char) : Option (List Char) :=
  match litCI "current".toList s with
  | some r =>
    match r.dropWhile isPySpace with
    | '=' :: r2 =>
      match litCI "new".toList (r2.dropWhile isPySpace) with
      | some r3 =>
        match r3 with
        | c :: _ =>
          if isPySpace c then
            match litCI "gliderecord".toList (r3.dropWhile isPySpace) with
            | some ('(' :: r4) =>
              match quotedCapture isFieldChar r4 with
              | some (cap, ')' :: _) => some cap
              | _ => none
            | _ => none
          else none
        | [] => none
      | none => none
    | _ => none
  | none => none

/-- Attempt pattern 2: `\bGlideRecord\(<q>(…)<q>\)`. -/
def tryTableCode2 (prev : Option Char) (s : List Char) : Option (List Char) :=
  if wordBoundaryBefore prev then
    match litCI "gliderecord".toList s with
    | some ('(' :: r) =>
      match quotedCapture isFieldChar r with
      | some (cap, ')' :: _) => some cap
      | _ => none
    | _ => none
  else none

/-- Attempt pattern 3: `\btableName\s*=\s*<q>(…)<q>`. -/
def tryTableCode3 (prev : Option Char) (s : List Char) : Option (List Char) :=
  if wordBoundaryBefore prev then
    match litCI "tablename".toList s with
    | some r =>
      match r.dropWhile isPySpace with
      | '=' :: r2 =>
        match quotedCapture isFieldChar (r2.dropWhile isPySpace) with
        | some (cap, _) => some cap
        | _ => none
      | _ => none
    | none => none
  else none

/-- Embeds `parse_table_from_code` from `scrape_all_scripts.py`: first pattern of
the cascade that matches; the capture is returned unstripped. -/
def parse_table_from_code (js : String) : String :=
  match search tryTableCode1 js.toList with
  | some cap => String.mk cap
  | none =>
    match search tryTableCode2 js.toList with
    | some cap => String.mk cap
    | none =>
      match search tryTableCode3 js.toList with
      | some cap => String.mk cap
      | none => ""

/-! ### Portal widget helpers (`scrape_all_scripts.py`,
`scrape_sp_widgets.py`) -/

/-- Attempt `controllerAs\s*:\s*<q>([A-Za-z_][A-Za-z0-9_]*)<q>`
(case-sensitive) at the current position. -/
def tryControllerAs (_ : Option Char) (s : List Char) : Option (List Char) :=
  match litCS "controllerAs".toList s with
  | some r =>
    match r.dropWhile isPySpace with
    | ':' :: r2 =>
      match (r2.dropWhile isPySpace) with
      | q :: r3 =>
        if isQuoteChar q then
          match r3 with
          | c :: _ =>
            if c.isAlpha || c = '_' then
              let name := r3.takeWhile isFieldCharCS
              match r3.drop name.length with
              | q2 :: _ => if isQuoteChar q2 then some name else none
              | [] => none
            else none
          | [] => none
        else none
      | [] => none
    | _ => none
  | none => none

/-- Attempt `\bvar\s+([A-Za-z_][A-Za-z0-9_]*)\s*=\s*this\s*;` at the
current position. -/
def tryVarThis (prev : Option Char) (s : List Char) : Option (List Char) :=
  if wordBoundaryBefore prev then
    match litCS "var".toList s with
    | some r =>
      match r with
      | c :: _ =>
        if isPySpace c then
          let r2 := r.dropWhile isPySpace
          match r2 with
          | c2 :: _ =>
            if c2.isAlpha || c2 = '_' then
              let name := r2.takeWhile isFieldCharCS
              match (r2.drop name.length).dropWhile isPySpace with
              | '=' :: r3 =>
                match litCS "this".toList (r3.dropWhile isPySpace) with
                | some r4 =>
                  match r4.dropWhile isPySpace with
                  | ';' :: _ => some name
                  | _ => none
                | none => none
              | _ => none
            else none
          | [] => none
        else none
      | [] => none
    | none => none
  else none

/-- Embeds `extract_controller_as`: the `controllerAs:` declaration if present,
else the `var c = this;` idiom, else `""`. -/
def extract_controller_as (client_js : String) : String :=
  match search tryControllerAs client_js.toList with
  | some name => String.mk name
  | none =>
    match search tryVarThis client_js.toList with
    | some name => String.mk name
    | none => ""

/-- Attempt the link-function header
`\bfunction\s+link\s*\(([^\)]*)\)\s*\{` (case-sensitive); returns the
parameter capture and the text after the opening brace. -/
def tryLinkHeader (prev : Option Char) (s : List Char) :
    Option (List Char × List Char) :=
  if wordBoundaryBefore prev then
    match litCS "function".toList s with
    | some r =>
      match r with
      | c :: _ =>
        if isPySpace c then
          match litCS "link".toList (r.dropWhile isPySpace) with
          | some r2 =>
            match r2.dropWhile isPySpace with
            | '(' :: r3 =>
              let params := r3.takeWhile (· ≠ ')')
              match r3.drop params.length with
              | ')' :: r4 =>
                match r4.dropWhile isPySpace with
                | c2 :: r5 => if c2 = lbrace then some (params, r5) else none
                | [] => none
              | _ => none
            | _ => none
          | none => none
        else none
      | [] => none
    | none => none
  else none

/-- The `while idx < len(...)` brace-depth loop of
`extract_link_function`: starting at depth `d`, accumulate characters
(reversed in `acc`) until the brace that balances the opening brace;
`none` when the input ends first. -/
def braceScanAux : Nat → List Char → List Char → Option (List Char)
  | _, _, [] => none
  | d, acc, c :: rest =>
    if c = lbrace then braceScanAux (d + 1) (c :: acc) rest
    else if c = rbrace then
      if d = 1 then some acc.reverse
      else braceScanAux (d - 1) (c :: acc) rest
    else braceScanAux d (c :: acc) rest

/-- Embeds `extract_link_function` (identical in `scrape_all_scripts.py` and
`scrape_sp_widgets.py`): reconstruct
`function link(<params>){\n<body>\n}` from the first matching header and
its balancing brace, or return `""` (also on unbalanced braces). -/
def extract_link_function (client_js : String) : String :=
  match search tryLinkHeader client_js.toList with
  | none => ""
  | some (params, rest) =>
    match braceScanAux 1 [] rest with
    | some body =>
      "function link(" ++ String.mk params ++ ")" ++ String.mk [lbrace] ++ "\n"
        ++ String.mk body ++ "\n" ++ String.mk [rbrace]
    | none => ""

/-- Number of opening braces in a character list (used to state what the
brace scanner of `extract_link_function` guarantees). -/
def openCt : List Char → Nat
  | [] => 0
  | c :: t => (if c = lbrace then 1 else 0) + openCt t

/-- Number of closing braces in a character list. -/
def closeCt : List Char → Nat
  | [] => 0
  | c :: t => (if c = rbrace then 1 else 0) + closeCt t

/-! ### JS role inference (`scrape_all_scripts.py`,
`scrape_client_scripts.py`) -/

/-- Embeds `INCLUDE_NAME_HINTS` of `scrape_all_scripts.py`. -/
def INCLUDE_NAME_HINTS : List String :=
  ["include", "processor", "server", "script_include", "ajax"]

/-- Embeds `CLIENT_NAME_HINTS` of `scrape_all_scripts.py`. -/
def CLIENT_NAME_HINTS : List String :=
  ["client", "workspace", "portal"]

/-- Embeds `readme_mentions` of `scrape_all_scripts.py`: some line contains the
token (case-insensitively) and its alphanumeric normal form (note that
this variant tests the token, not the filename). -/
def readme_mentions (filename : String) (lines : List String) (token : String) : Bool :=
  let _ := filename
  let norm := keepAlnum (pyLower token)
  lines.any (fun line =>
    let low := pyLower line
    strIn (pyLower token) low && strIn norm (keepAlnum low))

/-- The content triggers `function onload` … of `infer_js_role`. -/
def CONTENT_TRIGGERS : List String :=
  ["function onload", "function onchange", "function onsubmit",
   "function oncelledit", "function onvaluechange"]

/-- The server idioms `class.create`, `prototype =`, `gs.`,
`gliderecord` of `infer_js_role`. -/
def SERVER_IDIOMS : List String :=
  ["class.create", "prototype =", "gs.", "gliderecord"]

/-- Embeds `infer_js_role` of `scrape_all_scripts.py`: readme co-mention, then
filename hints (the include hint only fires when the content has no
`g_form`), then content signatures, else `unknown`. -/
def infer_js_role (filename code : String) (readme_lines : List String) : String :=
  let name := pyLower filename
  let content := pyLower code
  if readme_mentions filename readme_lines "script include" then "script_include"
  else if readme_mentions filename readme_lines "client script" then "client"
  else if (INCLUDE_NAME_HINTS.any (fun h => strIn h name)) && !(strIn "g_form" content) then
    "script_include"
  else if CLIENT_NAME_HINTS.any (fun h => strIn h name) then "client"
  else if CONTENT_TRIGGERS.any (fun t => strIn t content) then "client"
  else if strIn "g_form" content || strIn "g_scratchpad" content then "client"
  else if (SERVER_IDIOMS.any (fun t => strIn t content)) && !(strIn "g_form" content) then
    "script_include"
  else "unknown"

/-- Embeds `CLIENT_NAME_HINTS` of `scrape_client_scripts.py`. -/
def CLIENT_NAME_HINTS_CS : List String :=
  ["client", "onload", "onchange", "onsubmit", "oncelledit",
   "onvaluechange", "catalog", "portal", "script"]

/-- Embeds `INCLUDE_NAME_HINTS` of `scrape_client_scripts.py`. -/
def INCLUDE_NAME_HINTS_CS : List String :=
  ["include", "ajax", "util", "utils", "provider", "server", "processor"]

/-- Embeds `_normalize_token` of `scrape_client_scripts.py`. -/
def normalizeToken (value : String) : String :=
  keepAlnum (pyLower value)

/-- Embeds `readme_mentions` of `scrape_client_scripts.py`: the README references
the (extension-stripped, normalized) filename on a line that also contains
the keyword. -/
def readme_mentions_cs (filename : String) (lines : List String) (keyword : String) : Bool :=
  if lines.isEmpty then false
  else
    let token := normalizeToken (rootOf filename)
    if token = "" then false
    else
      lines.any (fun line =>
        strIn (pyLower keyword) (pyLower line) && strIn token (normalizeToken line))

/-- Embeds `infer_js_role` of `scrape_client_scripts.py`. -/
def infer_js_role_cs (filename code : String) (readme_lines : List String) : String :=
  let name := pyLower filename
  let content := pyLower code
  if readme_mentions_cs filename readme_lines "script include"
      || readme_mentions_cs filename readme_lines "server script" then "script_include"
  else if readme_mentions_cs filename readme_lines "client script" then "client"
  else if (INCLUDE_NAME_HINTS_CS.any (fun h => strIn h name)) && !(strIn "g_form" content) then
    "script_include"
  else if CLIENT_NAME_HINTS_CS.any (fun h => strIn h name) then "client"
  else if CONTENT_TRIGGERS.any (fun t => strIn t content) then "client"
  else if strIn "g_form" content || strIn "g_scratchpad" content then "client"
  else if (SERVER_IDIOMS.any (fun t => strIn t content)) && !(strIn "g_form" content) then
    "script_include"
  else "unknown"

/-- The per-file classification step of `split_js_files`. -/
def sjfStep (readme_lines : List String)
    (acc : List (String × String) × List (String × String) × List (String × String))
    (e : String × String) :
    List (String × String) × List (String × String) × List (String × String) :=
  if infer_js_role_cs e.1 e.2 readme_lines = "client" then (acc.1 ++ [e], acc.2.1, acc.2.2)
  else if infer_js_role_cs e.1 e.2 readme_lines = "script_include" then
    (acc.1, acc.2.1 ++ [e], acc.2.2)
  else (acc.1, acc.2.1, acc.2.2 ++ [e])

/-- Embeds `split_js_files` of `scrape_client_scripts.py`: partition `(filename,
code)` pairs by inferred role; if no client was found, the first unknown
file becomes the client bucket; all remaining unknowns fold into the
script-include bucket. -/
def split_js_files (entries : List (String × String)) (readme_lines : List String) :
    List (String × String) × List (String × String) :=
  match entries.foldl (sjfStep readme_lines) ([], [], []) with
  | ([], includes, u0 :: urest) => ([u0], includes ++ urest)
  | (clients, includes, unknown) => (clients, includes ++ unknown)

/-- Embeds `combine_scripts` of `scrape_client_scripts.py`: sort the `(filename,
code)` pairs by lowercased filename (Python's stable sort; the relation
below is a total preorder, and `insertionSort` is stable for it), strip
each body, drop empty ones, join with a blank line. -/
def combine_scripts (entries : List (String × String)) : String :=
  if entries.isEmpty then ""
  else
    pyJoin "\n\n"
      ((((List.insertionSort (fun a b : String × String =>
            (pyLower a.1).toList ≤ (pyLower b.1).toList) entries).map
          (fun e => pyStrip e.2)).filter (fun s => s ≠ "")))

/-! ### Classification cascade (`classify_js_role`, `scrape_all_scripts.py`) -/

/-- Embeds `classify_js_role` of `scrape_all_scripts.py`: category-structural
rules first, then category-specific sub-rules, then `infer_js_role`,
collapsing `unknown` into `server`. The `rest` closure encodes the
fall-through after the non-returning catalog branch. -/
def classify_js_role (snippet_path rel_path filename code : String)
    (readme_lines : List String) : String :=
  let lower_path := pyLower snippet_path
  let lower_rel := pyLower rel_path
  let lower_name := pyLower filename
  let content := pyLower code
  let rest := fun (_ : Unit) =>
    if strIn "service portal widgets" lower_path then
      if strIn "client" lower_name then "client"
      else if strIn "server" lower_name then "portal_server"
      else if strIn "link" lower_name then "client"
      else if strIn "g_form" content then "client"
      else "portal_server"
    else if strIn "service portal" lower_path then
      if strIn "client" lower_name then "client"
      else if strIn "server" lower_name then "portal_server"
      else if strIn "controller" lower_name then "client"
      else if strIn "g_form" content then "client"
      else "portal_server"
    else if strIn "ui actions" lower_path then
      if strIn "script include" lower_name || strIn "scriptinclude" lower_rel then
        "script_include"
      else if strIn "client" lower_name || strIn "workspace" lower_name then "client"
      else if strIn "server" lower_name then "server"
      else if strIn "g_form" content then "client"
      else "server"
    else if strIn "scheduled jobs" lower_path || strIn "background scripts" lower_path then
      "server"
    else if strIn "transform map scripts" lower_path then "server"
    else if strIn "core servicenow apis" lower_path then "server"
    else if strIn "integration" lower_path && strIn "mail scripts" lower_path then "server"
    else
      let guess := infer_js_role filename code readme_lines
      if guess = "client" then "client"
      else if guess = "script_include" then "script_include"
      else "server"
  if strIn "script include" lower_path || strIn "script include" lower_rel then
    "script_include"
  else if strIn "ux client script include" lower_path then "script_include"
  else if strIn "client scripts" lower_path || strIn "ux client scripts" lower_path then
    (if infer_js_role filename code readme_lines = "script_include" then "script_include"
     else "client")
  else if strIn "catalog client script" lower_path then
    (let guess := infer_js_role filename code readme_lines
     if guess = "script_include" then "script_include"
     else if guess = "client" then "client"
     else rest ())
  else rest ()

/-! ### Record model (`scrape_all_scripts.py`) -/

/-- Embeds `PRIMARY_FIELDS`. -/
def PRIMARY_FIELDS : List String :=
  ["name", "description", "script_type", "client_script", "script_include",
   "code", "code2", "client_side_type", "type_for_specialized_areas",
   "table", "data_table", "field_list", "html", "css", "option_schema",
   "link", "condition", "when_to_run", "repo_path", "action_name",
   "client_script_v2", "onClick", "coalesce", "source_table",
   "target_table", "client_callable"]

/-- Embeds `EXTRA_FIELDS`. -/
def EXTRA_FIELDS : List String :=
  ["category", "subcategory", "description_markdown", "server_script",
   "api_name", "access", "mobile_callable", "sandbox_callable", "ui_type",
   "sys_scope", "catalog_item", "applies_to", "controller_as", "demo_data",
   "scss", "notes", "run_as", "run_start", "run_period", "run_dayofweek",
   "run_dayofmonth", "run_time"]

/-- Embeds `ALL_FIELDS = PRIMARY_FIELDS + EXTRA_FIELDS`. -/
def ALL_FIELDS : List String := PRIMARY_FIELDS ++ EXTRA_FIELDS

/-- Embeds `LIST_FIELDS` (a Python set; held as a list, membership is all that is
used). -/
def LIST_FIELDS : List String :=
  ["client_script", "client_script_v2", "script_include", "code", "code2",
   "server_script", "html", "css", "scss", "option_schema", "link",
   "demo_data", "field_list", "data_table", "notes", "onClick"]

/-- Embeds `TEXT_EXTENSIONS`. -/
def TEXT_EXTENSIONS : List String :=
  [".css", ".scss", ".html", ".htm", ".js", ".json", ".md", ".txt", ".xml"]

/-- A Python row value: either a string or a list of strings
(`blank_row` initializes list fields to `[]`, and `append_value` only ever
appends strings). -/
inductive PyVal where
  | s (v : String)
  | l (vs : List String)
deriving DecidableEq

/-- A Python dict in insertion order. -/
abbrev Row := List (String × PyVal)

/-- Python `row[k]` / `row.get(k)`. -/
def dictGet (row : Row) (k : String) : Option PyVal :=
  match row with
  | [] => none
  | (k0, v0) :: t => if k0 = k then some v0 else dictGet t k

/-- Python `row[k] = v`: replace in place, or insert at the end. -/
def dictSet (row : Row) (k : String) (v : PyVal) : Row :=
  match row with
  | [] => [(k, v)]
  | (k0, v0) :: t => if k0 = k then (k0, v) :: t else (k0, v0) :: dictSet t k v

/-- Python truthiness of an optional row value (`None`, `""` and `[]` are
falsy). -/
def pyTruthy (v : Option PyVal) : Bool :=
  match v with
  | none => false
  | some (PyVal.s v) => v ≠ ""
  | some (PyVal.l vs) => !vs.isEmpty

/-- Read a string-valued field, defaulting to `""`. Used at points where
the surrounding code has already ensured the field is present and
string-valued (after the normalization loops of `finalize_row`). -/
def dGetStr (row : Row) (k : String) : String :=
  match dictGet row k with
  | some (PyVal.s v) => v
  | _ => ""

/-- Python `repr` of a list of strings, as produced by `str(...)` on a
list value (only reachable for malformed rows; kept for totality). -/
def listRepr (vs : List String) : String :=
  "[" ++ pyJoin ", " (vs.map (fun v => String.mk (Char.ofNat 39 :: v.toList) ++
    String.mk [Char.ofNat 39])) ++ "]"

/-- Python `str(v)` on a row value. -/
def pyValStr (v : PyVal) : String :=
  match v with
  | PyVal.s v => v
  | PyVal.l vs => listRepr vs

/-- The per-field initial value of `blank_row`. -/
def blankVal (name script_type category subcategory repo_path : String) (f : String) : PyVal :=
  if f = "name" then PyVal.s name
  else if f = "script_type" then PyVal.s script_type
  else if f = "repo_path" then PyVal.s repo_path
  else if f = "category" then PyVal.s category
  else if f = "subcategory" then PyVal.s subcategory
  else if f ∈ LIST_FIELDS then PyVal.l []
  else PyVal.s ""

/-- Embeds `blank_row`: every declared field, in `ALL_FIELDS` order, empty string
(or empty list for list fields), with the five identity fields filled in.
The Python builds the same dict by initializing and then assigning in
place, which leaves the key order at `ALL_FIELDS`. -/
def blank_row (name script_type category subcategory repo_path : String) : Row :=
  ALL_FIELDS.map (fun f => (f, blankVal name script_type category subcategory repo_path f))

/-- Embeds `append_value` (separator fixed at the default `"\n\n"`, the only one
used): skip falsy or whitespace-only values; append the trimmed value to a
list field (`none` embeds the `KeyError`/`AttributeError` a non-list value
would raise), or concatenate/assign for a scalar field. -/
def append_value (row : Row) (field value : String) : Option Row :=
  if value = "" then some row
  else
    let trimmed := pyStrip value
    if trimmed = "" then some row
    else if field ∈ LIST_FIELDS then
      match dictGet row field with
      | some (PyVal.l vs) => some (dictSet row field (PyVal.l (vs ++ [trimmed])))
      | _ => none
    else
      match dictGet row field with
      | some v =>
        if pyTruthy (some v) then
          some (dictSet row field (PyVal.s (pyValStr v ++ "\n\n" ++ trimmed)))
        else some (dictSet row field (PyVal.s trimmed))
      | none => some (dictSet row field (PyVal.s trimmed))

/-- The list entries an `append_value` call contributes: nothing for a
blank value, the trimmed value otherwise. -/
def stripToList (c : String) : List String :=
  if pyStrip c = "" then [] else [pyStrip c]

/-- Embeds `assign_js`: route a classified JS file into its field, with the
client/server overflow targets. -/
def assign_js (row : Row) (role content : String) : Option Row :=
  if role = "client" then
    let target := if !pyTruthy (dictGet row "client_script") then "client_script"
      else "client_script_v2"
    append_value row target content
  else if role = "script_include" then append_value row "script_include" content
  else if role = "portal_server" then append_value row "server_script" content
  else if role = "server" then
    let target := if !pyTruthy (dictGet row "code") then "code" else "code2"
    append_value row target content
  else append_value row "code" content

/-- The relative path used inside the file loop of `process_snippet`:
`path[len(snippet_path)+1:]` when under the snippet, else the basename. -/
def relOf (snippet_path path : String) : String :=
  if strStartsWith (snippet_path ++ "/") path then strDrop path (snippet_path.toList.length + 1)
  else pyBasename path

/-- The content-file loop of `process_snippet` (`scrape_all_scripts.py`,
the body iterating `for path in sorted(info.get("files", []))`), with the
network fetch abstracted as a function. Python sorts paths as strings
(code-point order); the paths of a tree listing are distinct, so the
stable `insertionSort` equals `sorted`. -/
def pfStep (snippet_path : String) (readme_lines : List String)
    (fetch : String → String) (r : Row) (path : String) : Option Row :=
  let rel := relOf snippet_path path
  let ext := extOf (pyLower path)
  if ext ∉ TEXT_EXTENSIONS then some r
  else
    let content := fetch path
    let filename := pyBasename path
    if ext = ".html" ∨ ext = ".htm" then append_value r "html" content
    else if ext = ".css" then append_value r "css" content
    else if ext = ".scss" then
      (append_value r "scss" content).bind (fun r2 => append_value r2 "css" content)
    else if ext = ".xml" then
      let target := if !pyTruthy (dictGet r "code") then "code" else "code2"
      append_value r target content
    else if ext = ".json" then
      let lower_rel := pyLower rel
      if strIn "option_schema" lower_rel || strIn "options_schema" lower_rel
          || strIn "option-schema" lower_rel then
        append_value r "option_schema" content
      else if strIn "demo" lower_rel || strIn "sample" lower_rel then
        append_value r "demo_data" content
      else append_value r "notes" content
    else if ext = ".md" then append_value r "notes" content
    else if ext = ".js" then
      assign_js r (classify_js_role snippet_path rel filename content readme_lines) content
    else some r

/-- The sorted traversal `for path in sorted(info.get("files", []))`. -/
def process_files (snippet_path : String) (readme_lines : List String)
    (fetch : String → String) (row : Row) (files : List String) : Option Row :=
  (List.insertionSort (fun a b : String => a.toList ≤ b.toList) files).foldlM
    (pfStep snippet_path readme_lines fetch) row

/-! ### `finalize_row` (`scrape_all_scripts.py`), step by step -/

/-- A row value viewed as a list (`value if isinstance(value, list) else
[value]`). -/
def toValList (v : PyVal) : List String :=
  match v with
  | PyVal.l vs => vs
  | PyVal.s v => [v]

/-- Python `"\n\n".join([v.strip() for v in values if v.strip()])`. -/
def joinCleaned (vs : List String) : String :=
  pyJoin "\n\n" ((vs.map pyStrip).filter (fun s => s ≠ ""))

/-- One step of the first `finalize_row` loop. -/
def flfStep (acc : Row) (kv : String × PyVal) : Row :=
  if kv.1 ∈ LIST_FIELDS then dictSet acc kv.1 (PyVal.s (joinCleaned (toValList kv.2)))
  else acc

/-- The first loop of `finalize_row`: every list field currently in the
row is joined into its final string (the `text_fields` comprehension is
taken over the row before mutation, which the fold's separate
entries/accumulator arguments reproduce). -/
def finalizeListFields (row : Row) : Row :=
  row.foldl flfStep row

/-- The normalized value of one field in the second `finalize_row` loop:
missing keys become `""`, remaining lists are joined, strings stripped. -/
def normVal (v : Option PyVal) : String :=
  match v with
  | none => ""
  | some (PyVal.l vs) => joinCleaned vs
  | some (PyVal.s v) => pyStrip v

/-- One step of the second `finalize_row` loop. -/
def nafStep (acc : Row) (k : String) : Row :=
  dictSet acc k (PyVal.s (normVal (dictGet acc k)))

/-- The second loop of `finalize_row` over `ALL_FIELDS`: insert missing
keys as `""`, join any remaining lists, strip strings. -/
def normalizeAllFields (row : Row) : Row :=
  ALL_FIELDS.foldl nafStep row

/-- Description derivation (`if not row["description"] and readme_markdown`). -/
def descStep (row : Row) (readme_markdown : String) : Row :=
  if !pyTruthy (dictGet row "description") && readme_markdown ≠ "" then
    dictSet row "description" (PyVal.s (parse_description readme_markdown))
  else row

/-- Event derivation (`if not row["client_side_type"]`). -/
def eventStep (row : Row) (readme_markdown : String) : Row :=
  if !pyTruthy (dictGet row "client_side_type") then
    let script_body := pyOr (dGetStr row "client_script") (dGetStr row "client_script_v2")
    let event := parse_event (pyOr readme_markdown (pyOr script_body ""))
    if event ≠ "" then dictSet row "client_side_type" (PyVal.s event) else row
  else row

/-- Table derivation (`if not row["table"]`). -/
def tableStep (row : Row) (readme_markdown : String) : Row :=
  if !pyTruthy (dictGet row "table") then
    let candidate := parse_table_from_readme (pyOr readme_markdown "")
    let candidate :=
      if candidate = "" then
        parse_table_from_code (pyOr (dGetStr row "client_script") (dGetStr row "code"))
      else candidate
    if candidate ≠ "" then dictSet row "table" (PyVal.s candidate) else row
  else row

/-- Field-list derivation (`if not row["field_list"]`): top three detected
field names, comma-joined. -/
def fieldListStep (row : Row) : Row :=
  if !pyTruthy (dictGet row "field_list") then
    let field_candidates := parse_fields_from_code (pyOr (dGetStr row "client_script") "")
    if !field_candidates.isEmpty then
      dictSet row "field_list" (PyVal.s (pyJoin ", " (field_candidates.take 3)))
    else row
  else row

/-- Specialized-areas relabeling. -/
def specializedStep (row : Row) (category subcategory script_type : String) : Row :=
  if category = "Specialized Areas" && !pyTruthy (dictGet row "type_for_specialized_areas") then
    let row := dictSet row "type_for_specialized_areas" (PyVal.s subcategory)
    if script_type = subcategory then dictSet row "script_type" (PyVal.s "Specialized Area")
    else row
  else row

/-- Portal-widget derivation, part 1: the controller alias. -/
def portalCtrlRow (row : Row) : Row :=
  if !pyTruthy (dictGet row "controller_as") then
    dictSet row "controller_as" (PyVal.s (extract_controller_as (dGetStr row "client_script")))
  else row

/-- Portal-widget derivation, part 2: the link function. The
`append_value` on `"link"` can raise (the field is a string at this
point but is in `LIST_FIELDS`), hence the `Option`. -/
def portalStep (row : Row) (category subcategory : String) : Option Row :=
  if category = "Modern Development" && subcategory = "Service Portal Widgets"
      && pyTruthy (dictGet row "client_script") then
    let row := portalCtrlRow row
    if !pyTruthy (dictGet row "link") then
      let link_func := extract_link_function (dGetStr row "client_script")
      if link_func ≠ "" then append_value row "link" link_func else some row
    else some row
  else some row

/-- AJAX capability derivation: a script-include-shaped unit with no
explicit `client_callable` whose script mentions `AbstractAjaxProcessor`
becomes client callable. -/
def ajaxStep (row : Row) (script_type : String) : Row :=
  if !pyTruthy (dictGet row "client_callable")
      && (script_type = "Script Include" ∨ script_type = "UX Script Include") then
    if strIn "AbstractAjaxProcessor" (pyOr (dGetStr row "script_include") "") then
      dictSet row "client_callable" (PyVal.s "true")
    else row
  else row

/-- The final comprehension `{key: str(row.get(key, "") or "") for key in
ALL_FIELDS}`. -/
def finalizeOutput (row : Row) : List (String × String) :=
  ALL_FIELDS.map (fun k =>
    (k,
      match dictGet row k with
      | none => ""
      | some (PyVal.s v) => v
      | some (PyVal.l vs) => if vs.isEmpty then "" else listRepr vs))

/-- Embeds `finalize_row` from `scrape_all_scripts.py`. -/
def finalize_row (row : Row) (readme_markdown script_type category subcategory : String) :
    Option (List (String × String)) :=
  let r := normalizeAllFields (finalizeListFields row)
  let r := descStep r readme_markdown
  let r := eventStep r readme_markdown
  let r := tableStep r readme_markdown
  let r := fieldListStep r
  let r := specializedStep r category subcategory script_type
  (portalStep r category subcategory).map (fun r2 =>
    let r3 := ajaxStep r2 script_type
    finalizeOutput (dictSet r3 "description_markdown" (PyVal.s (pyStrip readme_markdown))))

/-! ### Path grouping (`scrape_all_scripts.py`, `scrape_client_scripts.py`) -/

/-- A git tree node: its type (`blob` / `tree`) and path. -/
structure TreeNode where
  type : String
  path : String
deriving DecidableEq

/-- Embeds `BASE_FOLDERS`. -/
def BASE_FOLDERS : List String :=
  ["Client-Side Components", "Core ServiceNow APIs", "Integration",
   "Modern Development", "Server-Side Components", "Specialized Areas"]

/-- Embeds `ASSET_FOLDER` and `PAGES_FOLDER`. -/
def ASSET_FOLDER : String := "assets"

/-- The static-pages folder name. -/
def PAGES_FOLDER : String := "pages"

/-- Embeds `get_base_folder`: the first configured root (bases, then assets, then
pages) that prefixes the path. -/
def get_base_folder (path : String) : Option String :=
  (BASE_FOLDERS ++ [ASSET_FOLDER, PAGES_FOLDER]).find?
    (fun base => strStartsWith (base ++ "/") path)

/-- Embeds `resolve_snippet_root`: category/subcategory unit id, or `none` when
the path has fewer than two segments below the base. -/
def resolve_snippet_root (base path : String) : Option String :=
  let rel := strDrop path (base.toList.length + 1)
  match splitSlash rel with
  | p0 :: p1 :: _ => some (base ++ "/" ++ p0 ++ "/" ++ p1)
  | _ => none

/-- A grouped snippet entry: the readme path and the content-file paths. -/
structure SnipEntry where
  readme : String
  files : List String
deriving DecidableEq

/-- Dict lookup on snippet maps. -/
def dictGetSnip (g : List (String × SnipEntry)) (k : String) : Option SnipEntry :=
  match g with
  | [] => none
  | (k0, v0) :: t => if k0 = k then some v0 else dictGetSnip t k

/-- Python `setdefault` on the snippet map. -/
def setdefaultSnip (g : List (String × SnipEntry)) (k : String) : List (String × SnipEntry) :=
  if (dictGetSnip g k).isSome then g else g ++ [(k, ⟨"", []⟩)]

/-- In-place update of one snippet entry. -/
def updateSnip (g : List (String × SnipEntry)) (k : String) (f : SnipEntry → SnipEntry) :
    List (String × SnipEntry) :=
  match g with
  | [] => []
  | (k0, v0) :: t => if k0 = k then (k0, f v0) :: t else (k0, v0) :: updateSnip t k f

/-- The per-node step of `group_snippets`. -/
def gsStep (g : List (String × SnipEntry)) (node : TreeNode) : List (String × SnipEntry) :=
  if node.type ≠ "blob" then g
  else
    let path := node.path
    match get_base_folder path with
    | none => g
    | some base =>
      if base = ASSET_FOLDER ∨ base = PAGES_FOLDER then g
      else
        match resolve_snippet_root base path with
        | none => g
        | some snippet =>
          let g := setdefaultSnip g snippet
          if pyLower (pyBasename path) = "readme.md" then
            updateSnip g snippet (fun e => ⟨path, e.files⟩)
          else updateSnip g snippet (fun e => ⟨e.readme, e.files ++ [path]⟩)

/-- Embeds `group_snippets` of `scrape_all_scripts.py`. -/
def group_snippets (tree : List TreeNode) : List (String × SnipEntry) :=
  tree.foldl gsStep []

/-- The client-scripts folder constant of `scrape_client_scripts.py`. -/
def CS_FOLDER : String := "Client-Side Components/Client Scripts"

/-- A grouped client-scripts entry. -/
structure GroupEntry where
  readme : String
  js : List String
deriving DecidableEq

/-- Python `defaultdict` access for `group_files`. -/
def setdefaultGF (g : List (String × GroupEntry)) (k : String) : List (String × GroupEntry) :=
  if (g.find? (fun p => p.1 = k)).isSome then g else g ++ [(k, ⟨"", []⟩)]

/-- In-place update for `group_files` entries. -/
def updateGF (g : List (String × GroupEntry)) (k : String) (f : GroupEntry → GroupEntry) :
    List (String × GroupEntry) :=
  match g with
  | [] => []
  | (k0, v0) :: t => if k0 = k then (k0, f v0) :: t else (k0, v0) :: updateGF t k f

/-- Embeds `group_files` of `scrape_client_scripts.py`: only blobs exactly two
segments below the client-scripts folder; `README.md` (case-insensitive)
becomes the readme, `.js` files are collected, everything else (and every
malformed depth) is ignored. -/
def gfStep (g : List (String × GroupEntry)) (node : TreeNode) : List (String × GroupEntry) :=
  if node.type ≠ "blob" then g
  else
    let path := node.path
    if !strStartsWith (CS_FOLDER ++ "/") path then g
    else
      let rel := strDrop path (CS_FOLDER.toList.length + 1)
      let parts := splitSlash rel
      if parts.length ≠ 2 then g
      else
        match parts with
        | [folder, filename] =>
          let low := pyLower filename
          if low = "readme.md" then
            updateGF (setdefaultGF g folder) folder (fun e => ⟨path, e.js⟩)
          else if strEndsWith ".js" low then
            updateGF (setdefaultGF g folder) folder (fun e => ⟨e.readme, e.js ++ [path]⟩)
          else g
        | _ => g

/-- Embeds `group_files` of `scrape_client_scripts.py` (see the doc above). -/
def group_files (tree : List TreeNode) : List (String × GroupEntry) :=
  tree.foldl gfStep []

/-! ### Dictionary lemmas -/

theorem dictGet_dictSet_self (row : Row) (k : String) (v : PyVal) :
    dictGet (dictSet row k v) k = some v := by
  induction row with
  | nil => simp [dictGet, dictSet]
  | cons kv t ih =>
    by_cases h : kv.1 = k
    · simp [dictGet, dictSet, h]
    · simpa [dictGet, dictSet, h] using ih

theorem dictGet_dictSet_ne (row : Row) (k k' : String) (v : PyVal) (h : k' ≠ k) :
    dictGet (dictSet row k v) k' = dictGet row k' := by
  induction row with
  | nil => simp [dictGet, dictSet, h.symm]
  | cons kv t ih =>
    obtain ⟨k0, v0⟩ := kv
    by_cases h1 : k0 = k
    · subst h1
      simp [dictGet, dictSet, h.symm]
    · by_cases h2 : k0 = k' <;> simp [dictGet, dictSet, h, h.symm, h1, h2, ih]

theorem dictSet_get_eq (row : Row) (k : String) (v : PyVal)
    (h : dictGet row k = some v) : dictSet row k v = row := by
  induction row with
  | nil => simp [dictGet] at h
  | cons kv t ih =>
    obtain ⟨k0, v0⟩ := kv
    by_cases h1 : k0 = k
    · simp [dictGet, h1] at h
      simp [dictSet, h1, h]
    · simp [dictGet, h1] at h
      simp [dictSet, h1, ih h]

theorem dictSet_dictSet_self (row : Row) (k : String) (v w : PyVal) :
    dictSet (dictSet row k v) k w = dictSet row k w := by
  induction row with
  | nil => simp [dictSet]
  | cons kv t ih =>
    obtain ⟨k0, v0⟩ := kv
    by_cases h1 : k0 = k <;> simp [dictSet, h1, ih]

theorem mem_dictSet_self (row : Row) (k : String) (v v₀ : PyVal)
    (h : dictGet row k = some v₀) : (k, v) ∈ dictSet row k v := by
  induction row with
  | nil => simp [dictGet] at h
  | cons kv t ih =>
    obtain ⟨k0, v0⟩ := kv
    by_cases h1 : k0 = k
    · subst h1
      simp [dictSet]
    · simp [dictGet, h1] at h
      simp [dictSet, h1, ih h]

theorem mem_dictSet_ne (row : Row) (k k' : String) (v v' : PyVal)
    (h : (k', v') ∈ row) (hne : k' ≠ k) : (k', v') ∈ dictSet row k v := by
  induction row with
  | nil => simp at h
  | cons kv t ih =>
    obtain ⟨k0, v0⟩ := kv
    rcases List.mem_cons.mp h with h0 | h0
    · rcases Prod.mk.injEq .. ▸ h0 with ⟨he1, he2⟩
      subst he1; subst he2
      simp [dictSet, hne]
    · by_cases h1 : k0 = k <;> simp [dictSet, h1, ih h0, h0]

theorem map_fst_dictSet (row : Row) (k : String) (v v₀ : PyVal)
    (h : dictGet row k = some v₀) :
    (dictSet row k v).map Prod.fst = row.map Prod.fst := by
  induction row with
  | nil => simp [dictGet] at h
  | cons kv t ih =>
    by_cases h1 : kv.1 = k
    · simp [dictSet, h1]
    · simp [dictGet, h1] at h
      simp [dictSet, h1, ih h]

theorem dictGet_map_val (l : List String) (f : String → PyVal) (k : String)
    (h : k ∈ l) : dictGet (l.map fun x => (x, f x)) k = some (f k) := by
  induction l with
  | nil => simp at h
  | cons a t ih =>
    by_cases h1 : a = k
    · subst h1; simp [dictGet]
    · rcases List.mem_cons.mp h with h0 | h0
      · exact absurd h0.symm h1
      · simpa [dictGet, h1] using ih h0

theorem dictGet_blank_row (name st cat sub rp : String) (k : String)
    (h : k ∈ ALL_FIELDS) :
    dictGet (blank_row name st cat sub rp) k = some (blankVal name st cat sub rp k) :=
  dictGet_map_val ALL_FIELDS _ k h

/-! ### `append_value` lemmas -/

theorem append_value_frame (row : Row) (field value : String) (r' : Row)
    (h : append_value row field value = some r') (k : String) (hk : k ≠ field) :
    dictGet r' k = dictGet row k := by
  unfold append_value at h
  by_cases h1 : value = ""
  · simp [h1] at h
    subst h
    rfl
  · by_cases h2 : pyStrip value = ""
    · simp [h1, h2] at h
      subst h
      rfl
    · by_cases h3 : field ∈ LIST_FIELDS
      · simp only [h1, h2, h3, if_neg, if_pos, ite_true, ite_false] at h
        rcases hv : dictGet row field with _ | v
        · simp [hv] at h
        · rcases v with v | vs
          · simp [hv] at h
          · simp [hv] at h
            rw [← h]
            exact dictGet_dictSet_ne row field k _ hk
      · simp only [h1, h2, h3, if_neg, if_pos, ite_true, ite_false] at h
        rcases hv : dictGet row field with _ | v
        · simp [hv] at h
          rw [← h]
          exact dictGet_dictSet_ne row field k _ hk
        · simp [hv] at h
          by_cases h4 : pyTruthy (some v) <;> simp [h4] at h <;> rw [← h] <;>
            exact dictGet_dictSet_ne row field k _ hk

theorem append_value_list (row : Row) (field value : String) (vs : List String)
    (hf : field ∈ LIST_FIELDS) (hv : dictGet row field = some (PyVal.l vs)) :
    append_value row field value =
      some (dictSet row field (PyVal.l (vs ++ stripToList value))) := by
  by_cases h2 : pyStrip value = ""
  · have hl : stripToList value = [] := by simp [stripToList, h2]
    rw [hl, List.append_nil, dictSet_get_eq row field _ hv]
    unfold append_value
    by_cases h1 : value = "" <;> simp [h1, h2]
  · have h1 : value ≠ "" := by
      intro hh
      rw [hh] at h2
      exact h2 rfl
    have hl : stripToList value = [pyStrip value] := by simp [stripToList, h2]
    rw [hl]
    unfold append_value
    simp [h1, h2, hf, hv]

/-! ### Frame lemmas for the `finalize_row` steps -/

theorem descStep_frame (row : Row) (md : String) (k : String)
    (hk : k ≠ "description") : dictGet (descStep row md) k = dictGet row k := by
  unfold descStep
  split
  · exact dictGet_dictSet_ne row _ k _ hk
  · rfl

theorem eventStep_frame (row : Row) (md : String) (k : String)
    (hk : k ≠ "client_side_type") : dictGet (eventStep row md) k = dictGet row k := by
  unfold eventStep
  dsimp only
  split
  · split
    · exact dictGet_dictSet_ne row _ k _ hk
    · rfl
  · rfl

theorem tableStep_frame (row : Row) (md : String) (k : String)
    (hk : k ≠ "table") : dictGet (tableStep row md) k = dictGet row k := by
  unfold tableStep
  dsimp only
  split_ifs <;> first | exact dictGet_dictSet_ne row _ k _ hk | rfl

theorem fieldListStep_frame (row : Row) (k : String)
    (hk : k ≠ "field_list") : dictGet (fieldListStep row) k = dictGet row k := by
  unfold fieldListStep
  dsimp only
  split
  · split
    · exact dictGet_dictSet_ne row _ k _ hk
    · rfl
  · rfl

theorem specializedStep_frame (row : Row) (category subcategory script_type : String)
    (k : String) (hk1 : k ≠ "type_for_specialized_areas") (hk2 : k ≠ "script_type") :
    dictGet (specializedStep row category subcategory script_type) k = dictGet row k := by
  unfold specializedStep
  split
  · split
    · rw [dictGet_dictSet_ne _ _ k _ hk2]
      exact dictGet_dictSet_ne row _ k _ hk1
    · exact dictGet_dictSet_ne row _ k _ hk1
  · rfl

theorem portalCtrlRow_frame (row : Row) (k : String) (hk : k ≠ "controller_as") :
    dictGet (portalCtrlRow row) k = dictGet row k := by
  unfold portalCtrlRow
  split_ifs
  · exact dictGet_dictSet_ne row _ k _ hk
  · rfl

theorem portalStep_frame (row : Row) (category subcategory : String) (r' : Row)
    (h : portalStep row category subcategory = some r') (k : String)
    (hk1 : k ≠ "controller_as") (hk2 : k ≠ "link") :
    dictGet r' k = dictGet row k := by
  unfold portalStep at h
  dsimp only at h
  split_ifs at h with h1 h2 h3
  · rw [append_value_frame _ _ _ r' h k hk2]
    exact portalCtrlRow_frame row k hk1
  · rw [← Option.some_inj.mp h]
    exact portalCtrlRow_frame row k hk1
  · rw [← Option.some_inj.mp h]
    exact portalCtrlRow_frame row k hk1
  · rw [← Option.some_inj.mp h]

theorem ajaxStep_frame (row : Row) (script_type : String) (k : String)
    (hk : k ≠ "client_callable") : dictGet (ajaxStep row script_type) k = dictGet row k := by
  unfold ajaxStep
  split
  · split
    · exact dictGet_dictSet_ne row _ k _ hk
    · rfl
  · rfl

/-! ### Fold lemmas for the two finalize loops -/

theorem dictGet_of_mem_nodup (row : Row) (k : String) (v : PyVal)
    (hmem : (k, v) ∈ row) (hnd : (row.map Prod.fst).Nodup) :
    dictGet row k = some v := by
  induction row with
  | nil => simp at hmem
  | cons kv t ih =>
    obtain ⟨k0, v0⟩ := kv
    rcases List.mem_cons.mp hmem with h0 | h0
    · rcases Prod.mk.injEq .. ▸ h0 with ⟨he1, he2⟩
      subst he1; subst he2
      simp [dictGet]
    · have hk : k0 ≠ k := by
        intro hh
        subst hh
        exact (List.nodup_cons.mp hnd).1 (List.mem_map.mpr ⟨_, h0, rfl⟩)
      simp [dictGet, hk, ih h0 (List.nodup_cons.mp hnd).2]

theorem flf_fold_frame (entries : Row) (acc : Row) (k : String)
    (h : k ∉ entries.map Prod.fst) :
    dictGet (entries.foldl flfStep acc) k = dictGet acc k := by
  induction entries generalizing acc with
  | nil => rfl
  | cons kv t ih =>
    have hk : k ≠ kv.1 := by
      intro hh
      exact h (by simp [hh])
    have ht : k ∉ t.map Prod.fst := fun hh => h (by simp [hh])
    rw [List.foldl_cons, ih _ ht]
    unfold flfStep
    split
    · exact dictGet_dictSet_ne acc _ k _ hk
    · rfl

theorem flf_fold_nonlist (entries : Row) (acc : Row) (k : String)
    (h : k ∉ LIST_FIELDS) :
    dictGet (entries.foldl flfStep acc) k = dictGet acc k := by
  induction entries generalizing acc with
  | nil => rfl
  | cons kv t ih =>
    rw [List.foldl_cons, ih _]
    unfold flfStep
    split
    · have hk : k ≠ kv.1 := by
        intro hh
        rw [hh] at h
        exact h (by assumption)
      exact dictGet_dictSet_ne acc _ k _ hk
    · rfl

theorem flf_fold_mem (entries : Row) (acc : Row) (k : String) (v : PyVal)
    (hmem : (k, v) ∈ entries) (hnd : (entries.map Prod.fst).Nodup)
    (hf : k ∈ LIST_FIELDS) :
    dictGet (entries.foldl flfStep acc) k =
      some (PyVal.s (joinCleaned (toValList v))) := by
  induction entries generalizing acc with
  | nil => simp at hmem
  | cons kv t ih =>
    obtain ⟨k0, v0⟩ := kv
    rcases List.mem_cons.mp hmem with h0 | h0
    · rcases Prod.mk.injEq .. ▸ h0 with ⟨he1, he2⟩
      subst he1; subst he2
      rw [List.foldl_cons]
      rw [flf_fold_frame t _ k (List.nodup_cons.mp hnd).1]
      unfold flfStep
      simp only [hf, if_pos]
      exact dictGet_dictSet_self acc k _
    · rw [List.foldl_cons]
      exact ih (flfStep acc (k0, v0)) h0 (List.nodup_cons.mp hnd).2

theorem finalizeListFields_get_list (row : Row) (k : String) (v : PyVal)
    (hmem : (k, v) ∈ row) (hnd : (row.map Prod.fst).Nodup) (hf : k ∈ LIST_FIELDS) :
    dictGet (finalizeListFields row) k = some (PyVal.s (joinCleaned (toValList v))) :=
  flf_fold_mem row row k v hmem hnd hf

theorem finalizeListFields_get_nonlist (row : Row) (k : String) (h : k ∉ LIST_FIELDS) :
    dictGet (finalizeListFields row) k = dictGet row k :=
  flf_fold_nonlist row row k h

theorem naf_fold_frame (l : List String) (acc : Row) (k : String) (h : k ∉ l) :
    dictGet (l.foldl nafStep acc) k = dictGet acc k := by
  induction l generalizing acc with
  | nil => rfl
  | cons a t ih =>
    have hk : k ≠ a := fun hh => h (by simp [hh])
    have ht : k ∉ t := fun hh => h (by simp [hh])
    rw [List.foldl_cons, ih _ ht]
    unfold nafStep
    exact dictGet_dictSet_ne acc _ k _ hk

theorem naf_fold_mem (l : List String) (acc : Row) (k : String)
    (hmem : k ∈ l) (hnd : l.Nodup) :
    dictGet (l.foldl nafStep acc) k = some (PyVal.s (normVal (dictGet acc k))) := by
  induction l generalizing acc with
  | nil => simp at hmem
  | cons a t ih =>
    rcases List.mem_cons.mp hmem with h0 | h0
    · subst h0
      rw [List.foldl_cons, naf_fold_frame t _ k (List.nodup_cons.mp hnd).1]
      unfold nafStep
      exact dictGet_dictSet_self acc k _
    · have hk : k ≠ a := by
        intro hh
        subst hh
        exact (List.nodup_cons.mp hnd).1 h0
      rw [List.foldl_cons, ih (nafStep acc a) h0 (List.nodup_cons.mp hnd).2]
      unfold nafStep
      rw [dictGet_dictSet_ne acc _ k _ hk]

theorem normalizeAllFields_get (row : Row) (k : String)
    (hmem : k ∈ ALL_FIELDS) :
    dictGet (normalizeAllFields row) k = some (PyVal.s (normVal (dictGet row k))) :=
  naf_fold_mem ALL_FIELDS row k hmem (by decide)

/-! ### `strip` lemmas -/

theorem string_ext_toList {s t : String} (h : s.toList = t.toList) : s = t := by
  cases s; cases t; exact congrArg String.mk h

theorem dropWhile_eq_self_of_head (p : Char → Bool) (l : List Char)
    (h : ∀ c, l.head? = some c → p c = false) : l.dropWhile p = l := by
  cases l with
  | nil => rfl
  | cons a t => simp [List.dropWhile, h a rfl]

theorem head?_dropWhile_false (p : Char → Bool) (l : List Char) (c : Char)
    (h : (l.dropWhile p).head? = some c) : p c = false := by
  induction l with
  | nil => simp [List.dropWhile] at h
  | cons a t ih =>
    by_cases hp : p a
    · rw [List.dropWhile_cons_of_pos hp] at h
      exact ih h
    · rw [List.dropWhile_cons_of_neg hp] at h
      simp at h
      rw [← h]
      exact Bool.of_not_eq_true hp

theorem getLast?_dropWhile (p : Char → Bool) (l : List Char)
    (h : l.dropWhile p ≠ []) : (l.dropWhile p).getLast? = l.getLast? := by
  induction l with
  | nil => simp [List.dropWhile] at h
  | cons a t ih =>
    by_cases hp : p a
    · rw [List.dropWhile_cons_of_pos hp] at h ⊢
      have ht : t ≠ [] := by
        intro hh
        rw [hh] at h
        exact h rfl
      rw [ih h]
      cases t with
      | nil => exact absurd rfl ht
      | cons b u => simp [List.getLast?]
    · rw [List.dropWhile_cons_of_neg hp]

theorem stripL_eq_self (l : List Char)
    (h1 : ∀ c, l.head? = some c → isPySpace c = false)
    (h2 : ∀ c, l.getLast? = some c → isPySpace c = false) : pyStripL l = l := by
  unfold pyStripL
  rw [dropWhile_eq_self_of_head _ _ h1]
  rw [dropWhile_eq_self_of_head _ _ (fun c hc => h2 c ((List.head?_reverse l) ▸ hc))]
  exact List.reverse_reverse l

theorem stripL_head_false (l : List Char) (c : Char)
    (h : (pyStripL l).head? = some c) : isPySpace c = false := by
  unfold pyStripL at h
  rw [List.head?_reverse] at h
  set X := (l.dropWhile isPySpace).reverse with hX
  have hne : X.dropWhile isPySpace ≠ [] := by
    intro hh
    rw [hh] at h
    simp at h
  rw [getLast?_dropWhile _ _ hne, hX, List.getLast?_reverse] at h
  exact head?_dropWhile_false _ _ _ h

theorem stripL_last_false (l : List Char) (c : Char)
    (h : (pyStripL l).getLast? = some c) : isPySpace c = false := by
  unfold pyStripL at h
  rw [List.getLast?_reverse] at h
  exact head?_dropWhile_false _ _ _ h

theorem strip_strip (s : String) : pyStrip (pyStrip s) = pyStrip s := by
  apply string_ext_toList
  show pyStripL (pyStripL s.toList) = pyStripL s.toList
  exact stripL_eq_self _ (stripL_head_false s.toList) (stripL_last_false s.toList)

theorem strip_eq_self_of_ends (s : String)
    (h1 : ∀ c, s.toList.head? = some c → isPySpace c = false)
    (h2 : ∀ c, s.toList.getLast? = some c → isPySpace c = false) : pyStrip s = s := by
  apply string_ext_toList
  show pyStripL s.toList = s.toList
  exact stripL_eq_self _ h1 h2

theorem toList_append (a b : String) : (a ++ b).toList = a.toList ++ b.toList :=
  String.data_append a b

theorem toList_ne_nil_of_ne_empty {s : String} (h : s ≠ "") : s.toList ≠ [] := by
  intro hh
  exact h (string_ext_toList hh)

/-- Stripping the blank-line join of two already-stripped, non-empty
strings is the identity: its first and last characters are the first of
`a` and the last of `b`. -/
theorem strip_join_pair (a b : String) (ha : pyStrip a = a) (hb : pyStrip b = b)
    (hna : a ≠ "") (hnb : b ≠ "") :
    pyStrip (a ++ "\n\n" ++ b) = a ++ "\n\n" ++ b := by
  apply strip_eq_self_of_ends
  · intro c hc
    rw [show (a ++ "\n\n" ++ b).toList = a.toList ++ (("\n\n" ++ b).toList) by
      rw [toList_append, toList_append, toList_append, List.append_assoc]] at hc
    cases hl : a.toList with
    | nil => exact absurd hl (toList_ne_nil_of_ne_empty hna)
    | cons x xs =>
      rw [hl] at hc
      simp at hc
      apply stripL_head_false a.toList
      rw [show pyStripL a.toList = a.toList from congrArg String.toList ha, hl, ← hc]
      rfl
  · intro c hc
    rw [show (a ++ "\n\n" ++ b).toList = (a.toList ++ ('\n' :: '\n' :: [])) ++ b.toList by
      rw [toList_append, toList_append]; rfl] at hc
    rw [List.getLast?_append_of_ne_nil _ (toList_ne_nil_of_ne_empty hnb)] at hc
    apply stripL_last_false b.toList
    rw [show pyStripL b.toList = b.toList from congrArg String.toList hb]
    exact hc

/-! ### Claims -/

/-- C1 (counterexample): the claim says every unrecognized input comes
back as its trimmed text; `as_bool` (one of the two cited normalizers)
maps `"maybe"` to `""`, not to `"maybe"`. -/
theorem c1_counterexample :
    as_bool "maybe" = "" ∧ pyStrip "maybe" = "maybe" ∧ ("" : String) ≠ "maybe" := by
  refine ⟨by decide, by decide, by decide⟩

theorem truthy_not_falsy (x : String) (h : x ∈ FALSY_TOKENS) : x ∉ TRUTHY_TOKENS := by
  intro ht
  simp only [FALSY_TOKENS, List.mem_cons, List.not_mem_nil, or_false] at h
  rcases h with rfl | rfl | rfl | rfl | rfl | rfl <;> exact absurd ht (by decide)

/-- C1 (amended): both normalizers map recognized truthy tokens to
`"true"` and falsy tokens to `"false"`; on anything else
`normalize_bool` returns the trimmed input unchanged while `as_bool`
returns `""`. -/
theorem c1_bool_normalization (s : String) :
    (pyLower (pyStrip s) ∈ TRUTHY_TOKENS →
      normalize_bool s = "true" ∧ as_bool s = "true")
    ∧ (pyLower (pyStrip s) ∈ FALSY_TOKENS →
      normalize_bool s = "false" ∧ as_bool s = "false")
    ∧ (pyLower (pyStrip s) ∉ TRUTHY_TOKENS → pyLower (pyStrip s) ∉ FALSY_TOKENS →
      normalize_bool s = pyStrip s ∧ as_bool s = "") := by
  have hemp : ∀ hs : s = "", pyLower (pyStrip s) = "" := fun hs => by rw [hs]; rfl
  refine ⟨fun h => ⟨?_, ?_⟩, fun h => ⟨?_, ?_⟩, fun h1 h2 => ⟨?_, ?_⟩⟩
  · unfold normalize_bool
    simp [h]
  · have hs : s ≠ "" := by
      intro hs
      rw [hemp hs] at h
      exact absurd h (by decide)
    unfold as_bool
    simp [hs, h]
  · unfold normalize_bool
    simp [h, truthy_not_falsy _ h]
  · have hs : s ≠ "" := by
      intro hs
      rw [hemp hs] at h
      exact absurd h (by decide)
    unfold as_bool
    simp [hs, h, truthy_not_falsy _ h]
  · unfold normalize_bool
    simp [h1, h2]
  · unfold as_bool
    by_cases hs : s = ""
    · simp [hs]
    · simp [hs, h1, h2]

/-- C1 (witness): the amended theorem evaluated at `" Yes"`, `"0"` and
`" maybe "`. -/
theorem c1_witness :
    (normalize_bool " Yes" = "true" ∧ as_bool " Yes" = "true")
    ∧ (normalize_bool "0" = "false" ∧ as_bool "0" = "false")
    ∧ (normalize_bool " maybe " = "maybe" ∧ as_bool " maybe " = "") := by
  refine ⟨(c1_bool_normalization " Yes").1 (by decide),
    (c1_bool_normalization "0").2.1 (by decide), ?_⟩
  have h := (c1_bool_normalization " maybe ").2.2 (by decide) (by decide)
  rw [h.1, h.2]
  exact ⟨by decide, rfl⟩

/-- C10: appending a value whose trimmed form is empty leaves the record
completely unchanged (no list entry, no scalar modification, no error). -/
theorem c10_append_blank_noop (row : Row) (field value : String)
    (h : pyStrip value = "") : append_value row field value = some row := by
  unfold append_value
  by_cases h1 : value = "" <;> simp [h1, h]

/-- C10 (witness): appending whitespace to an empty record is a no-op. -/
theorem c10_witness : append_value [] "notes" " \n\t " = some [] :=
  c10_append_blank_noop [] "notes" " \n\t " (by decide)

theorem sjf_fold_eq (rl : List String) (entries : List (String × String))
    (c i u : List (String × String)) :
    entries.foldl (sjfStep rl) (c, i, u) =
      (c ++ entries.filter (fun e => infer_js_role_cs e.1 e.2 rl == "client"),
       i ++ entries.filter (fun e => infer_js_role_cs e.1 e.2 rl == "script_include"),
       u ++ entries.filter (fun e => !(infer_js_role_cs e.1 e.2 rl == "client")
          && !(infer_js_role_cs e.1 e.2 rl == "script_include"))) := by
  induction entries generalizing c i u with
  | nil => simp
  | cons e t ih =>
    rw [List.foldl_cons]
    by_cases h1 : infer_js_role_cs e.1 e.2 rl = "client"
    · rw [show sjfStep rl (c, i, u) e = (c ++ [e], i, u) by
        unfold sjfStep; rw [if_pos h1], ih]
      simp [List.filter_cons, h1]
    · by_cases h2 : infer_js_role_cs e.1 e.2 rl = "script_include"
      · rw [show sjfStep rl (c, i, u) e = (c, i ++ [e], u) by
          unfold sjfStep; rw [if_neg h1, if_pos h2], ih]
        simp [List.filter_cons, h1, h2]
      · rw [show sjfStep rl (c, i, u) e = (c, i, u ++ [e]) by
          unfold sjfStep; rw [if_neg h1, if_neg h2], ih]
        simp [List.filter_cons, h1, h2]

/-- C5: in the client-scripts domain (the one configured to require a
client role), a unit whose files all classify `unknown` sends its first
file to the client bucket and every other file to the script-include
bucket; when some file did classify `client`, no unknown file is promoted
and all unknowns fold into the script-include bucket. In the unified
scraper, role `unknown` routes to the server overflow field `code`. -/
theorem c5_unknown_tiebreak :
    (∀ (entries : List (String × String)) (rl : List String),
      (∀ e ∈ entries, infer_js_role_cs e.1 e.2 rl = "unknown") →
      split_js_files entries rl = (entries.take 1, entries.drop 1))
    ∧ (∀ (entries : List (String × String)) (rl : List String),
      (∃ e ∈ entries, infer_js_role_cs e.1 e.2 rl = "client") →
      split_js_files entries rl =
        (entries.filter (fun e => infer_js_role_cs e.1 e.2 rl == "client"),
         entries.filter (fun e => infer_js_role_cs e.1 e.2 rl == "script_include")
           ++ entries.filter (fun e => !(infer_js_role_cs e.1 e.2 rl == "client")
               && !(infer_js_role_cs e.1 e.2 rl == "script_include"))))
    ∧ (∀ (row : Row) (content : String),
        assign_js row "unknown" content = append_value row "code" content) := by
  refine ⟨fun entries rl hall => ?_, fun entries rl hex => ?_, fun row content => ?_⟩
  · unfold split_js_files
    rw [sjf_fold_eq]
    have hc : entries.filter (fun e => infer_js_role_cs e.1 e.2 rl == "client") = [] := by
      rw [List.filter_eq_nil_iff]
      intro e he
      simp [hall e he]
    have hi : entries.filter (fun e => infer_js_role_cs e.1 e.2 rl == "script_include") = [] := by
      rw [List.filter_eq_nil_iff]
      intro e he
      simp [hall e he]
    have hu : entries.filter (fun e => !(infer_js_role_cs e.1 e.2 rl == "client")
        && !(infer_js_role_cs e.1 e.2 rl == "script_include")) = entries := by
      rw [List.filter_eq_self]
      intro e he
      simp [hall e he]
    rw [hc, hi, hu]
    cases entries with
    | nil => rfl
    | cons e t => rfl
  · unfold split_js_files
    rw [sjf_fold_eq]
    obtain ⟨e, he, hrole⟩ := hex
    have hne : entries.filter (fun e => infer_js_role_cs e.1 e.2 rl == "client") ≠ [] := by
      intro hh
      have : e ∈ entries.filter (fun e => infer_js_role_cs e.1 e.2 rl == "client") :=
        List.mem_filter.mpr ⟨he, by simp [hrole]⟩
      rw [hh] at this
      exact absurd this (List.not_mem_nil e)
    cases hcf : entries.filter (fun e => infer_js_role_cs e.1 e.2 rl == "client") with
    | nil => exact absurd hcf hne
    | cons x xs => simp
  · rfl

/-- C5 (witness): two files neither of which matches any rule — the
first becomes the client script, the second a script include; and the
unified scraper appends an unknown file to `code`. -/
theorem c5_witness :
    split_js_files [("a.js", "zz body"), ("b.js", "qq body")] [] =
      ([("a.js", "zz body")], [("b.js", "qq body")])
    ∧ assign_js [("code", PyVal.l [])] "unknown" "x" =
        append_value [("code", PyVal.l [])] "code" "x" :=
  ⟨c5_unknown_tiebreak.1 [("a.js", "zz body"), ("b.js", "qq body")] [] (by decide),
   c5_unknown_tiebreak.2.2 [("code", PyVal.l [])] "x"⟩

/-- C6: in both classifiers, once the readme co-mention rules fail, an
include-leaning filename hint assigns `script_include` exactly when the
content has no `g_form` marker, and a client-leaning filename hint
assigns `client` regardless of content whenever the (earlier) include
rule did not fire; the cascade short-circuits at the first match. -/
theorem c6_filename_hints :
    (∀ (filename code : String) (rl : List String),
      readme_mentions filename rl "script include" = false →
      readme_mentions filename rl "client script" = false →
      ((INCLUDE_NAME_HINTS.any (fun h => strIn h (pyLower filename)) = true →
        strIn "g_form" (pyLower code) = false →
        infer_js_role filename code rl = "script_include")
       ∧ (CLIENT_NAME_HINTS.any (fun h => strIn h (pyLower filename)) = true →
          (INCLUDE_NAME_HINTS.any (fun h => strIn h (pyLower filename)) = false
            ∨ strIn "g_form" (pyLower code) = true) →
          infer_js_role filename code rl = "client")))
    ∧ (∀ (filename code : String) (rl : List String),
      readme_mentions_cs filename rl "script include" = false →
      readme_mentions_cs filename rl "server script" = false →
      readme_mentions_cs filename rl "client script" = false →
      ((INCLUDE_NAME_HINTS_CS.any (fun h => strIn h (pyLower filename)) = true →
        strIn "g_form" (pyLower code) = false →
        infer_js_role_cs filename code rl = "script_include")
       ∧ (CLIENT_NAME_HINTS_CS.any (fun h => strIn h (pyLower filename)) = true →
          (INCLUDE_NAME_HINTS_CS.any (fun h => strIn h (pyLower filename)) = false
            ∨ strIn "g_form" (pyLower code) = true) →
          infer_js_role_cs filename code rl = "client"))) := by
  constructor
  · intro filename code rl hr1 hr2
    constructor
    · intro hinc hgf
      unfold infer_js_role
      simp [hr1, hr2, hinc, hgf]
    · intro hcl hor
      unfold infer_js_role
      rcases hor with hni | hgf
      · simp [hr1, hr2, hni, hcl]
      · simp [hr1, hr2, hgf, hcl]
  · intro filename code rl hr1 hr2 hr3
    constructor
    · intro hinc hgf
      unfold infer_js_role_cs
      simp [hr1, hr2, hr3, hinc, hgf]
    · intro hcl hor
      unfold infer_js_role_cs
      rcases hor with hni | hgf
      · simp [hr1, hr2, hr3, hni, hcl]
      · simp [hr1, hr2, hr3, hgf, hcl]

/-- C6 (witness): an include-named file with no `g_form` is a script
include; a client-named file is client even though its content carries a
server idiom. -/
theorem c6_witness :
    infer_js_role "my_processor.js" "var x = 1;" [] = "script_include"
    ∧ infer_js_role "portal_view.js" "var gr = new GlideRecord(Q);" [] = "client"
    ∧ infer_js_role_cs "AjaxUtil.js" "var x = 1;" [] = "script_include" :=
  ⟨((c6_filename_hints.1 "my_processor.js" "var x = 1;" [] (by decide) (by decide)).1
      (by decide) (by decide)),
   ((c6_filename_hints.1 "portal_view.js" "var gr = new GlideRecord(Q);" [] (by decide)
      (by decide)).2 (by decide) (Or.inl (by decide))),
   ((c6_filename_hints.2 "AjaxUtil.js" "var x = 1;" [] (by decide) (by decide) (by decide)).1
      (by decide) (by decide))⟩

/-- C9: a blob path under a configured root whose relative part has fewer
segments than the grouping depth contributes nothing: removing it from
the tree leaves the grouping of all other paths untouched (and no error
is raised — the step function is total). This holds for the unified
scraper's two-segment grouping and for the client-scripts scraper's
depth-two grouping alike. -/
theorem c9_malformed_paths :
    (∀ (xs ys : List TreeNode) (p b : String),
      get_base_folder p = some b → b ∈ BASE_FOLDERS →
      (splitSlash (strDrop p (b.toList.length + 1))).length < 2 →
      group_snippets (xs ++ ⟨"blob", p⟩ :: ys) = group_snippets (xs ++ ys))
    ∧ (∀ (xs ys : List TreeNode) (p : String),
      strStartsWith (CS_FOLDER ++ "/") p = true →
      (splitSlash (strDrop p (CS_FOLDER.toList.length + 1))).length < 2 →
      group_files (xs ++ ⟨"blob", p⟩ :: ys) = group_files (xs ++ ys)) := by
  constructor
  · intro xs ys p b hb hbase hlen
    have hnotasset : ¬(b = ASSET_FOLDER ∨ b = PAGES_FOLDER) := by
      simp only [BASE_FOLDERS, List.mem_cons, List.not_mem_nil, or_false] at hbase
      rcases hbase with rfl | rfl | rfl | rfl | rfl | rfl <;> decide
    have hres : resolve_snippet_root b p = none := by
      unfold resolve_snippet_root
      dsimp only
      cases hm : splitSlash (strDrop p (b.toList.length + 1)) with
      | nil => rfl
      | cons x rest =>
        cases rest with
        | nil => rfl
        | cons y t =>
          rw [hm] at hlen
          simp at hlen
          omega
    have hstep : ∀ g, gsStep g ⟨"blob", p⟩ = g := by
      intro g
      unfold gsStep
      simp only [hb, hres]
      rw [if_neg (by simp)]
      simp [hnotasset]
    unfold group_snippets
    rw [List.foldl_append, List.foldl_append, List.foldl_cons, hstep]
  · intro xs ys p hpre hlen
    have hstep : ∀ g, gfStep g ⟨"blob", p⟩ = g := by
      intro g
      unfold gfStep
      rw [if_neg (by simp)]
      dsimp only
      rw [hpre]
      simp only [Bool.not_true, Bool.false_eq_true, if_false]
      rw [if_pos (by omega)]
    unfold group_files
    rw [List.foldl_append, List.foldl_append, List.foldl_cons, hstep]

/-- C9 (witness): a stray file directly under a base folder is silently
excluded and grouping of the remaining README path is unaffected. -/
theorem c9_witness :
    group_snippets ([] ++ ⟨"blob", "Integration/stray.md"⟩ ::
        [⟨"blob", "Integration/Mail Scripts/X/README.md"⟩]) =
      group_snippets ([] ++ [⟨"blob", "Integration/Mail Scripts/X/README.md"⟩])
    ∧ group_files ([] ++ ⟨"blob", "Client-Side Components/Client Scripts/stray.js"⟩ ::
        [⟨"blob", "Client-Side Components/Client Scripts/F/a.js"⟩]) =
      group_files ([] ++ [⟨"blob", "Client-Side Components/Client Scripts/F/a.js"⟩]) :=
  ⟨c9_malformed_paths.1 [] [⟨"blob", "Integration/Mail Scripts/X/README.md"⟩]
    "Integration/stray.md" "Integration" (by decide) (by decide) (by decide),
   c9_malformed_paths.2 [] [⟨"blob", "Client-Side Components/Client Scripts/F/a.js"⟩]
    "Client-Side Components/Client Scripts/stray.js" (by decide) (by decide)⟩

theorem openCt_cons (c : Char) (t : List Char) :
    openCt (c :: t) = (if c = lbrace then 1 else 0) + openCt t := rfl

theorem closeCt_cons (c : Char) (t : List Char) :
    closeCt (c :: t) = (if c = rbrace then 1 else 0) + closeCt t := rfl

theorem braceScanAux_spec (s : List Char) : ∀ (d : Nat) (acc body : List Char),
    1 ≤ d → braceScanAux d acc s = some body →
    ∃ t, body = acc.reverse ++ t ∧ openCt t + d = closeCt t + 1
      ∧ ∀ q ∈ t.inits, closeCt q + 1 ≤ openCt q + d := by
  have hbr : ¬ lbrace = rbrace := by decide
  have hrb : ¬ rbrace = lbrace := by decide
  induction s with
  | nil => intro d acc body _ h; exact absurd h (by simp [braceScanAux])
  | cons c rest ih =>
    intro d acc body hd h
    unfold braceScanAux at h
    by_cases h1 : c = lbrace
    · rw [if_pos h1] at h
      obtain ⟨t', ht', hbal, hpre⟩ := ih (d + 1) (c :: acc) body (by omega) h
      subst h1
      refine ⟨lbrace :: t', by rw [ht']; simp, ?_, ?_⟩
      · rw [openCt_cons, closeCt_cons, if_pos rfl, if_neg hbr]
        omega
      · intro q hq
        rw [List.inits_cons] at hq
        rcases List.mem_cons.mp hq with rfl | hq
        · simp [openCt, closeCt]
          omega
        · obtain ⟨q', hq', rfl⟩ := List.mem_map.mp hq
          have := hpre q' hq'
          rw [openCt_cons, closeCt_cons, if_pos rfl, if_neg hbr]
          omega
    · rw [if_neg h1] at h
      by_cases h2 : c = rbrace
      · rw [if_pos h2] at h
        by_cases h3 : d = 1
        · rw [if_pos h3] at h
          refine ⟨[], by simpa using (Option.some_inj.mp h).symm,
            by simp [openCt, closeCt, h3], ?_⟩
          intro q hq
          rw [show ([] : List Char).inits = [[]] from rfl, List.mem_singleton] at hq
          subst hq
          simp [openCt, closeCt]
          omega
        · rw [if_neg h3] at h
          obtain ⟨t', ht', hbal, hpre⟩ := ih (d - 1) (c :: acc) body (by omega) h
          subst h2
          refine ⟨rbrace :: t', by rw [ht']; simp, ?_, ?_⟩
          · rw [openCt_cons, closeCt_cons, if_pos rfl, if_neg hrb]
            omega
          · intro q hq
            rw [List.inits_cons] at hq
            rcases List.mem_cons.mp hq with rfl | hq
            · simp [openCt, closeCt]
              omega
            · obtain ⟨q', hq', rfl⟩ := List.mem_map.mp hq
              have := hpre q' hq'
              rw [openCt_cons, closeCt_cons, if_pos rfl, if_neg hrb]
              omega
      · rw [if_neg h2] at h
        obtain ⟨t', ht', hbal, hpre⟩ := ih d (c :: acc) body hd h
        refine ⟨c :: t', by rw [ht']; simp, ?_, ?_⟩
        · rw [openCt_cons, closeCt_cons, if_neg h1, if_neg h2]
          omega
        · intro q hq
          rw [List.inits_cons] at hq
          rcases List.mem_cons.mp hq with rfl | hq
          · simp [openCt, closeCt]
            omega
          · obtain ⟨q', hq', rfl⟩ := List.mem_map.mp hq
            have := hpre q' hq'
            rw [openCt_cons, closeCt_cons, if_neg h1, if_neg h2]
            omega

/-- C8: `extract_link_function` is total — on every input it either
returns `""` (in particular on a `function link(` header whose braces
never balance, second conjunct) or the reconstructed
`function link(<params>){\n<body>\n}` whose body is brace-balanced and
stops at the brace balancing the opening one (every proper prefix has at
least as many opening as closing braces). -/
theorem c8_link_function_total :
    (∀ s : String, extract_link_function s = ""
      ∨ ∃ params body : List Char,
          extract_link_function s =
            "function link(" ++ String.mk params ++ ")" ++ String.mk [lbrace] ++ "\n"
              ++ String.mk body ++ "\n" ++ String.mk [rbrace]
          ∧ openCt body = closeCt body
          ∧ ∀ q ∈ body.inits, closeCt q ≤ openCt q)
    ∧ extract_link_function
        ("function link(s) " ++ String.mk [lbrace] ++ " if (x) " ++ String.mk [lbrace]
          ++ " return; ") = "" := by
  constructor
  · intro s
    unfold extract_link_function
    cases hsr : search tryLinkHeader s.toList with
    | none => exact Or.inl rfl
    | some pr =>
      obtain ⟨params, rest⟩ := pr
      cases hb : braceScanAux 1 [] rest with
      | none => exact Or.inl (by simp only [hb])
      | some body =>
        refine Or.inr ⟨params, body, by simp only [hb], ?_, ?_⟩
        · obtain ⟨t, ht, hbal, _⟩ := braceScanAux_spec rest 1 [] body (le_refl 1) hb
          simp only [List.reverse_nil, List.nil_append] at ht
          subst ht
          omega
        · obtain ⟨t, ht, _, hpre⟩ := braceScanAux_spec rest 1 [] body (le_refl 1) hb
          simp only [List.reverse_nil, List.nil_append] at ht
          subst ht
          intro q hq
          have := hpre q hq
          omega
  · decide

theorem map_fst_finalizeOutput (r : Row) : (finalizeOutput r).map Prod.fst = ALL_FIELDS := by
  unfold finalizeOutput
  simp [List.map_map, Function.comp_def]

theorem lookup_isSome_of_key_mem (l : List (String × String)) (k : String)
    (h : k ∈ l.map Prod.fst) : ∃ v, l.lookup k = some v := by
  induction l with
  | nil => simp at h
  | cons kv t ih =>
    obtain ⟨k0, v0⟩ := kv
    by_cases h1 : k = k0
    · subst h1
      exact ⟨v0, by simp [List.lookup]⟩
    · have hm : k ∈ t.map Prod.fst := by
        rcases List.mem_cons.mp h with h0 | h0
        · exact absurd h0 h1
        · exact h0
      obtain ⟨v, hv⟩ := ih hm
      refine ⟨v, ?_⟩
      rw [List.lookup_cons]
      rw [show (k == k0) = false from beq_eq_false_iff_ne.mpr h1]
      exact hv

theorem lookup_map_self (l : List String) (F : String → String) (k : String) (h : k ∈ l) :
    (l.map (fun x => (x, F x))).lookup k = some (F k) := by
  induction l with
  | nil => simp at h
  | cons a t ih =>
    by_cases h1 : k = a
    · subst h1
      simp [List.lookup]
    · rcases List.mem_cons.mp h with h0 | h0
      · exact absurd h0 h1
      · rw [List.map_cons, List.lookup_cons,
          show (k == a) = false from beq_eq_false_iff_ne.mpr h1]
        exact ih h0

theorem lookup_finalizeOutput (r : Row) (k : String) (hk : k ∈ ALL_FIELDS) :
    (finalizeOutput r).lookup k = some (match dictGet r k with
      | none => ""
      | some (PyVal.s v) => v
      | some (PyVal.l vs) => if vs.isEmpty then "" else listRepr vs) := by
  unfold finalizeOutput
  exact lookup_map_self ALL_FIELDS _ k hk

theorem lookup_finalizeOutput_str (r : Row) (k : String) (hk : k ∈ ALL_FIELDS) :
    (finalizeOutput r).lookup k =
      some (match dictGet r k with
        | none => ""
        | some v => if pyTruthy (some v) then pyValStr v else "") := by
  rw [lookup_finalizeOutput r k hk]
  cases hd : dictGet r k with
  | none => rfl
  | some v =>
    cases v with
    | s v =>
      by_cases hv : v = ""
      · simp [pyTruthy, pyValStr, hv]
      · simp [pyTruthy, pyValStr, hv]
    | l vs =>
      cases hvs : vs.isEmpty
      · simp [pyTruthy, pyValStr, hvs]
      · simp [pyTruthy, pyValStr, hvs]

theorem lookup_finalizeOutput_falsy (r : Row) (k : String) (hk : k ∈ ALL_FIELDS)
    (hf : pyTruthy (dictGet r k) = false) :
    (finalizeOutput r).lookup k = some "" := by
  rw [lookup_finalizeOutput_str r k hk]
  cases hd : dictGet r k with
  | none => rfl
  | some v =>
    rw [hd] at hf
    simp [hf]

/-- C3: whenever `finalize_row` produces a record, that record has
exactly the declared `ALL_FIELDS` keys, in order, each bound to a string
value (the record type is `String`-valued, so no value is ever null) and
absent keys cannot occur; moreover the record is the comprehension
`{key: str(row.get(key, "") or "") for key in ALL_FIELDS}` of the
assembled internal row, so every field whose internal value is missing,
the empty string or the empty list — one nothing was extracted or
assembled into — comes out bound to the empty string `""`. -/
theorem c3_record_shape (row : Row) (md st cat sub : String)
    (out : List (String × String)) (h : finalize_row row md st cat sub = some out) :
    out.map Prod.fst = ALL_FIELDS
      ∧ (∀ k ∈ ALL_FIELDS, ∃ v : String, out.lookup k = some v)
      ∧ ∃ r3 : Row, out = finalizeOutput r3
          ∧ (∀ k ∈ ALL_FIELDS, out.lookup k =
              some (match dictGet r3 k with
                | none => ""
                | some v => if pyTruthy (some v) then pyValStr v else ""))
          ∧ (∀ k ∈ ALL_FIELDS, pyTruthy (dictGet r3 k) = false →
              out.lookup k = some "") := by
  unfold finalize_row at h
  dsimp only at h
  obtain ⟨r2, _, hout⟩ := Option.map_eq_some'.mp h
  have hmap : out.map Prod.fst = ALL_FIELDS := by
    rw [← hout]
    exact map_fst_finalizeOutput _
  refine ⟨hmap, fun k hk => lookup_isSome_of_key_mem out k (hmap ▸ hk),
    dictSet (ajaxStep r2 st) "description_markdown" (PyVal.s (pyStrip md)),
    hout.symm, fun k hk => ?_, fun k hk hf => ?_⟩
  · rw [← hout]
    exact lookup_finalizeOutput_str _ k hk
  · rw [← hout]
    exact lookup_finalizeOutput_falsy _ k hk hf

set_option maxRecDepth 4000 in
/-- C3 (witness): the record finalized from a blank unit has exactly the
declared keys, each bound to a string value determined by the
`str(row.get(key, "") or "")` comprehension, and the untouched `table`
field comes out as the empty string. -/
theorem c3_witness :
    (((finalize_row (blank_row "n" "T" "C" "S" "p") "" "T" "C" "S").getD []).map Prod.fst
        = ALL_FIELDS
      ∧ (∀ k ∈ ALL_FIELDS, ∃ v : String,
          ((finalize_row (blank_row "n" "T" "C" "S" "p") "" "T" "C" "S").getD []).lookup k
            = some v)
      ∧ ∃ r3 : Row,
          (finalize_row (blank_row "n" "T" "C" "S" "p") "" "T" "C" "S").getD []
            = finalizeOutput r3
          ∧ (∀ k ∈ ALL_FIELDS,
              ((finalize_row (blank_row "n" "T" "C" "S" "p") "" "T" "C" "S").getD []).lookup k
                = some (match dictGet r3 k with
                  | none => ""
                  | some v => if pyTruthy (some v) then pyValStr v else ""))
          ∧ (∀ k ∈ ALL_FIELDS, pyTruthy (dictGet r3 k) = false →
              ((finalize_row (blank_row "n" "T" "C" "S" "p") "" "T" "C" "S").getD []).lookup k
                = some ""))
      ∧ ((finalize_row (blank_row "n" "T" "C" "S" "p") "" "T" "C" "S").getD []).lookup "table"
          = some "" :=
  ⟨c3_record_shape (blank_row "n" "T" "C" "S" "p") "" "T" "C" "S" _ (by rfl), by rfl⟩

theorem pyOr_empty (s : String) : pyOr s "" = s := by
  unfold pyOr
  split_ifs with h
  · rfl
  · rw [not_ne_iff] at h
    rw [h]

/-- C7: once the two normalization loops have run, a unit whose
`script_type` is `Script Include` or `UX Script Include`, whose
`client_callable` is empty and whose assembled `script_include` text
contains `AbstractAjaxProcessor` is finalized with
`client_callable = "true"`; a non-empty extracted value is carried
through unchanged instead. -/
theorem c7_ajax_capability (row : Row) (md st cat sub : String)
    (out : List (String × String))
    (hst : st = "Script Include" ∨ st = "UX Script Include")
    (h : finalize_row row md st cat sub = some out) :
    (dictGet (normalizeAllFields (finalizeListFields row)) "client_callable"
        = some (PyVal.s "") →
      strIn "AbstractAjaxProcessor"
        (dGetStr (normalizeAllFields (finalizeListFields row)) "script_include") = true →
      out.lookup "client_callable" = some "true")
    ∧ (∀ v : String, v ≠ "" →
      dictGet (normalizeAllFields (finalizeListFields row)) "client_callable"
        = some (PyVal.s v) →
      out.lookup "client_callable" = some v) := by
  unfold finalize_row at h
  dsimp only at h
  obtain ⟨r2, hp, hout⟩ := Option.map_eq_some'.mp h
  set mid := normalizeAllFields (finalizeListFields row) with hmid
  have hchain : ∀ k : String, k ≠ "description" → k ≠ "client_side_type" → k ≠ "table" →
      k ≠ "field_list" → k ≠ "type_for_specialized_areas" → k ≠ "script_type" →
      k ≠ "controller_as" → k ≠ "link" → dictGet r2 k = dictGet mid k := by
    intro k h1 h2 h3 h4 h5 h6 h7 h8
    rw [portalStep_frame _ _ _ _ hp k h7 h8,
        specializedStep_frame _ _ _ _ k h5 h6,
        fieldListStep_frame _ k h4,
        tableStep_frame _ _ k h3,
        eventStep_frame _ _ k h2,
        descStep_frame _ _ k h1]
  have hcc := hchain "client_callable" (by decide) (by decide) (by decide) (by decide)
    (by decide) (by decide) (by decide) (by decide)
  have hsi := hchain "script_include" (by decide) (by decide) (by decide) (by decide)
    (by decide) (by decide) (by decide) (by decide)
  constructor
  · intro hccv hsiv
    have hr2cc : dictGet r2 "client_callable" = some (PyVal.s "") := by
      rw [hcc]
      exact hccv
    have hajax : ajaxStep r2 st = dictSet r2 "client_callable" (PyVal.s "true") := by
      unfold ajaxStep
      rw [if_pos, if_pos]
      · rw [show dGetStr r2 "script_include" = dGetStr mid "script_include" by
          unfold dGetStr; rw [hsi], pyOr_empty]
        exact hsiv
      · rw [hr2cc]
        simp [pyTruthy, hst]
    rw [← hout]
    rw [hajax, lookup_finalizeOutput _ _ (by decide),
      dictGet_dictSet_ne _ _ _ _ (by decide), dictGet_dictSet_self]
  · intro v hv hccv
    have hr2cc : dictGet r2 "client_callable" = some (PyVal.s v) := by
      rw [hcc]
      exact hccv
    have hajax : ajaxStep r2 st = r2 := by
      unfold ajaxStep
      rw [if_neg]
      rw [hr2cc]
      simp [pyTruthy, hv]
    rw [← hout]
    rw [hajax, lookup_finalizeOutput _ _ (by decide),
      dictGet_dictSet_ne _ _ _ _ (by decide), hr2cc]

/-- C7 (witness): a Script Include unit whose only script mentions
`AbstractAjaxProcessor` and that has no explicit `client_callable` is
finalized client-callable. -/
theorem c7_witness :
    ((finalize_row
        (dictSet (blank_row "U" "Script Include" "Server-Side Components" "Script Includes" "p")
          "script_include" (PyVal.l ["var x = new AbstractAjaxProcessor();"]))
        "" "Script Include" "Server-Side Components" "Script Includes").getD []).lookup
      "client_callable" = some "true" :=
  (c7_ajax_capability
    (dictSet (blank_row "U" "Script Include" "Server-Side Components" "Script Includes" "p")
      "script_include" (PyVal.l ["var x = new AbstractAjaxProcessor();"]))
    "" "Script Include" "Server-Side Components" "Script Includes" _
    (Or.inl rfl) (by rfl)).1 (by decide) (by decide)

theorem mem_firstOccsAux (l : List String) : ∀ (seen : List String) (x : String),
    x ∈ firstOccsAux seen l ↔ (x ∈ l ∧ x ∉ seen) := by
  induction l with
  | nil => intro seen x; simp [firstOccsAux]
  | cons a t ih =>
    intro seen x
    unfold firstOccsAux
    by_cases h : a ∈ seen
    · rw [if_pos h, ih seen]
      constructor
      · rintro ⟨hx, hs⟩
        exact ⟨List.mem_cons_of_mem _ hx, hs⟩
      · rintro ⟨hx, hs⟩
        rcases List.mem_cons.mp hx with rfl | hx
        · exact absurd h hs
        · exact ⟨hx, hs⟩
    · rw [if_neg h]
      constructor
      · intro hx
        rcases List.mem_cons.mp hx with rfl | hx
        · exact ⟨List.mem_cons_self _ _, h⟩
        · obtain ⟨h1, h2⟩ := (ih (a :: seen) x).mp hx
          exact ⟨List.mem_cons_of_mem _ h1, fun hc2 => h2 (List.mem_cons_of_mem _ hc2)⟩
      · rintro ⟨hx, hs⟩
        by_cases hxa : x = a
        · subst hxa
          exact List.mem_cons_self _ _
        · rcases List.mem_cons.mp hx with rfl | hx
          · exact absurd rfl hxa
          · refine List.mem_cons_of_mem _ ((ih (a :: seen) x).mpr ⟨hx, ?_⟩)
            intro hc
            rcases List.mem_cons.mp hc with h1 | h1
            · exact hxa h1
            · exact hs h1

theorem nodup_firstOccsAux (l : List String) : ∀ seen : List String,
    (firstOccsAux seen l).Nodup := by
  induction l with
  | nil => intro seen; simp [firstOccsAux]
  | cons a t ih =>
    intro seen
    unfold firstOccsAux
    by_cases h : a ∈ seen
    · rw [if_pos h]
      exact ih seen
    · rw [if_neg h]
      refine List.nodup_cons.mpr ⟨?_, ih (a :: seen)⟩
      intro hc
      exact ((mem_firstOccsAux t (a :: seen) a).mp hc).2 (List.mem_cons_self a seen)

theorem mem_firstOccs (l : List String) (x : String) : x ∈ firstOccs l ↔ x ∈ l := by
  unfold firstOccs
  rw [mem_firstOccsAux]
  simp

theorem map_fst_counterItems (l : List String) :
    (counterItems l).map Prod.fst = firstOccs l := by
  unfold counterItems
  rw [List.map_map]
  simp [Function.comp_def]

theorem snd_of_mem_counterItems (l : List String) (p : String × Nat)
    (h : p ∈ counterItems l) : p.2 = l.count p.1 := by
  unfold counterItems at h
  obtain ⟨n, _, rfl⟩ := List.mem_map.mp h
  rfl

theorem orderedInsert_filter_count (a : String × Nat) (s : List (String × Nat)) (c : Nat) :
    (List.orderedInsert (fun x y : String × Nat => y.2 ≤ x.2) a s).filter
        (fun p => p.2 == c) =
      if a.2 = c then a :: s.filter (fun p => p.2 == c)
      else s.filter (fun p => p.2 == c) := by
  induction s with
  | nil =>
    rw [List.orderedInsert_nil]
    by_cases h : a.2 = c <;> simp [List.filter_cons, h]
  | cons y t ih =>
    unfold List.orderedInsert
    by_cases hr : y.2 ≤ a.2
    · rw [if_pos hr]
      by_cases h : a.2 = c <;> simp [List.filter_cons, h]
    · rw [if_neg hr]
      have hy : a.2 < y.2 := Nat.lt_of_not_le hr
      by_cases h : a.2 = c
      · have hyc : ¬(y.2 = c) := by omega
        simp [List.filter_cons, h, hyc, ih]
      · by_cases hyc : y.2 = c <;> simp [List.filter_cons, h, hyc, ih]

theorem most_common_filter_count (items : List (String × Nat)) (c : Nat) :
    (most_common items).filter (fun p => p.2 == c) = items.filter (fun p => p.2 == c) := by
  unfold most_common
  induction items with
  | nil => rfl
  | cons a t ih =>
    rw [show List.insertionSort (fun x y : String × Nat => y.2 ≤ x.2) (a :: t)
        = List.orderedInsert (fun x y : String × Nat => y.2 ≤ x.2) a
            (List.insertionSort (fun x y : String × Nat => y.2 ≤ x.2) t) from rfl,
      orderedInsert_filter_count]
    by_cases h : a.2 = c <;> simp [List.filter_cons, h, ih]

/-- C2 (amended): both extractors scan the fixed `g_form` accessor set for
string-literal first arguments and rank the captured names by descending
frequency; the unified scraper breaks ties by ascending name (code-point
order), the client-scripts scraper stably, i.e. by first-seen order; the
derived `field_list` value is the top at most three names joined by
`", "`. -/
theorem c2_field_ranking (js : String) :
    ((parse_fields_from_code js).Pairwise (fun a b =>
        (gfTokens js).count b < (gfTokens js).count a
        ∨ ((gfTokens js).count a = (gfTokens js).count b ∧ a.toList ≤ b.toList)))
    ∧ (∀ n, n ∈ parse_fields_from_code js ↔ n ∈ gfTokens js)
    ∧ (parse_fields_from_code js).Nodup
    ∧ ((parse_fields_from_code_cs js).Pairwise (fun a b =>
        (csTokens js).count b ≤ (csTokens js).count a))
    ∧ (∀ c : Nat, (parse_fields_from_code_cs js).filter
          (fun n => (csTokens js).count n == c)
        = ((counterItems (csTokens js)).filter (fun p => p.2 == c)).map Prod.fst)
    ∧ (∀ row : Row, dictGet row "field_list" = some (PyVal.s "") →
        parse_fields_from_code (dGetStr row "client_script") ≠ [] →
        dictGet (fieldListStep row) "field_list" = some (PyVal.s (pyJoin ", "
          ((parse_fields_from_code (dGetStr row "client_script")).take 3)))) := by
  have hperm := List.perm_insertionSort pyKeyLe (counterItems (gfTokens js))
  have hmemp : ∀ p ∈ List.insertionSort pyKeyLe (counterItems (gfTokens js)),
      p.2 = (gfTokens js).count p.1 :=
    fun p hp => snd_of_mem_counterItems _ p (hperm.mem_iff.mp hp)
  have hperm2 := List.perm_insertionSort
    (fun a b : String × Nat => b.2 ≤ a.2) (counterItems (csTokens js))
  have hmemp2 : ∀ p ∈ List.insertionSort (fun a b : String × Nat => b.2 ≤ a.2)
      (counterItems (csTokens js)), p.2 = (csTokens js).count p.1 :=
    fun p hp => snd_of_mem_counterItems _ p (hperm2.mem_iff.mp hp)
  refine ⟨?_, ?_, ?_, ?_, ?_, ?_⟩
  · unfold parse_fields_from_code
    by_cases he : (gfTokens js).isEmpty
    · simp [he]
    · rw [if_neg he]
      rw [List.pairwise_map]
      refine List.Pairwise.imp_of_mem ?_
        (List.sorted_insertionSort pyKeyLe (counterItems (gfTokens js)))
      intro a b ha hb hle
      rcases hle with h1 | ⟨h1, h2⟩
      · exact Or.inl (hmemp a ha ▸ hmemp b hb ▸ h1)
      · exact Or.inr ⟨hmemp a ha ▸ hmemp b hb ▸ h1, h2⟩
  · intro n
    unfold parse_fields_from_code
    by_cases he : (gfTokens js).isEmpty
    · rw [if_pos he]
      rw [List.isEmpty_iff] at he
      rw [he]
    · rw [if_neg he]
      rw [List.mem_map]
      constructor
      · rintro ⟨p, hp, rfl⟩
        have := hperm.mem_iff.mp hp
        have h2 := (mem_firstOccs (gfTokens js) p.1).mp
        rw [← map_fst_counterItems] at h2
        exact h2 (List.mem_map.mpr ⟨p, this, rfl⟩)
      · intro hn
        have h2 : n ∈ (counterItems (gfTokens js)).map Prod.fst := by
          rw [map_fst_counterItems, mem_firstOccs]
          exact hn
        obtain ⟨p, hp, rfl⟩ := List.mem_map.mp h2
        exact ⟨p, hperm.mem_iff.mpr hp, rfl⟩
  · unfold parse_fields_from_code
    by_cases he : (gfTokens js).isEmpty
    · simp [he]
    · rw [if_neg he]
      rw [(hperm.map Prod.fst).nodup_iff]
      rw [map_fst_counterItems]
      exact nodup_firstOccsAux _ _
  · unfold parse_fields_from_code_cs
    by_cases he : (csTokens js).isEmpty
    · simp [he]
    · rw [if_neg he]
      unfold most_common
      rw [List.pairwise_map]
      refine List.Pairwise.imp_of_mem ?_
        (List.sorted_insertionSort (fun a b : String × Nat => b.2 ≤ a.2)
          (counterItems (csTokens js)))
      intro a b ha hb hle
      exact hmemp2 a ha ▸ hmemp2 b hb ▸ hle
  · intro c
    unfold parse_fields_from_code_cs
    by_cases he : (csTokens js).isEmpty
    · rw [if_pos he]
      rw [List.isEmpty_iff] at he
      rw [he]
      rfl
    · rw [if_neg he]
      rw [List.filter_map]
      have hcong : (most_common (counterItems (csTokens js))).filter
            ((fun n => (csTokens js).count n == c) ∘ Prod.fst)
          = (most_common (counterItems (csTokens js))).filter (fun p => p.2 == c) := by
        apply List.filter_congr
        intro p hp
        unfold most_common at hp
        rw [Function.comp_apply, hmemp2 p hp]
      rw [hcong, most_common_filter_count]
  · intro row h1 h2
    unfold fieldListStep
    dsimp only
    rw [if_pos (by rw [h1]; rfl)]
    rw [if_pos]
    · rw [dictGet_dictSet_self, pyOr_empty]
    · rw [pyOr_empty]
      simp [h2]

/-- C2 (counterexample): two tie-frequency names captured in the order
`zebra`, `alpha` come back ranked `alpha`, `zebra` by the unified
scraper — alphabetically, not in first-seen order as the claim states. -/
theorem c2_counterexample :
    gfTokens "g_form.setValue(\"zebra\", \"1\"); g_form.setValue(\"alpha\", \"2\");"
        = ["zebra", "alpha"]
    ∧ counterItems
        (gfTokens "g_form.setValue(\"zebra\", \"1\"); g_form.setValue(\"alpha\", \"2\");")
        = [("zebra", 1), ("alpha", 1)]
    ∧ parse_fields_from_code
        "g_form.setValue(\"zebra\", \"1\"); g_form.setValue(\"alpha\", \"2\");"
        = ["alpha", "zebra"]
    ∧ parse_fields_from_code
        "g_form.setValue(\"zebra\", \"1\"); g_form.setValue(\"alpha\", \"2\");"
      ≠ firstOccs
          (gfTokens "g_form.setValue(\"zebra\", \"1\"); g_form.setValue(\"alpha\", \"2\");") := by
  refine ⟨by decide, by decide, by decide, by decide⟩

/-- C2 (witness): the field-list derivation joins the ranked names with
a comma and space. -/
theorem c2_witness :
    dictGet (fieldListStep [("field_list", PyVal.s ""),
        ("client_script",
          PyVal.s "g_form.setValue(\"zebra\", \"1\"); g_form.setValue(\"alpha\", \"2\");")])
      "field_list" = some (PyVal.s (pyJoin ", "
        ((parse_fields_from_code
          (dGetStr [("field_list", PyVal.s ""),
            ("client_script",
              PyVal.s "g_form.setValue(\"zebra\", \"1\"); g_form.setValue(\"alpha\", \"2\");")]
            "client_script")).take 3))) :=
  (c2_field_ranking "").2.2.2.2.2 _ (by decide) (by decide)

theorem map_fst_blank_row (name st cat sub rp : String) :
    (blank_row name st cat sub rp).map Prod.fst = ALL_FIELDS := by
  unfold blank_row
  rw [List.map_map]
  simp [Function.comp_def]

theorem pfStep_js (sp : String) (rl : List String) (fetch : String → String)
    (r : Row) (p : String) (vs : List String)
    (hext : extOf (pyLower p) = ".js")
    (hcls : classify_js_role sp (relOf sp p) (pyBasename p) (fetch p) rl = "script_include")
    (hget : dictGet r "script_include" = some (PyVal.l vs)) :
    pfStep sp rl fetch r p =
      some (dictSet r "script_include" (PyVal.l (vs ++ stripToList (fetch p)))) := by
  unfold pfStep
  dsimp only
  rw [hext]
  rw [if_neg (by decide)]
  rw [if_neg (by decide), if_neg (by decide), if_neg (by decide), if_neg (by decide),
    if_neg (by decide), if_neg (by decide), if_pos rfl]
  rw [hcls]
  unfold assign_js
  rw [if_neg (by decide), if_pos rfl]
  exact append_value_list r "script_include" (fetch p) vs (by decide) hget

theorem foldlM_option_cons (f : Row → String → Option Row) (r r' : Row) (a : String)
    (l : List String) (h : f r a = some r') :
    List.foldlM f r (a :: l) = List.foldlM f r' l := by
  rw [List.foldlM_cons, h]
  rfl

theorem process_two_si (name st cat sub rp sp : String) (rl : List String)
    (fetch : String → String) (p1 p2 c1 c2 : String)
    (hlt : p1.toList < p2.toList)
    (hx1 : extOf (pyLower p1) = ".js") (hx2 : extOf (pyLower p2) = ".js")
    (hf1 : fetch p1 = c1) (hf2 : fetch p2 = c2)
    (hc1 : classify_js_role sp (relOf sp p1) (pyBasename p1) c1 rl = "script_include")
    (hc2 : classify_js_role sp (relOf sp p2) (pyBasename p2) c2 rl = "script_include") :
    process_files sp rl fetch (blank_row name st cat sub rp) [p1, p2] =
      some (dictSet (blank_row name st cat sub rp) "script_include"
        (PyVal.l (stripToList c1 ++ stripToList c2)))
    ∧ process_files sp rl fetch (blank_row name st cat sub rp) [p2, p1] =
      some (dictSet (blank_row name st cat sub rp) "script_include"
        (PyVal.l (stripToList c1 ++ stripToList c2))) := by
  have hble : dictGet (blank_row name st cat sub rp) "script_include" = some (PyVal.l []) := by
    rw [dictGet_blank_row name st cat sub rp "script_include" (by decide)]
    rfl
  have h1 := pfStep_js sp rl fetch (blank_row name st cat sub rp) p1 [] hx1
    (by rw [hf1]; exact hc1) hble
  rw [hf1] at h1
  rw [List.nil_append] at h1
  have h2 := pfStep_js sp rl fetch
    (dictSet (blank_row name st cat sub rp) "script_include" (PyVal.l (stripToList c1)))
    p2 (stripToList c1) hx2 (by rw [hf2]; exact hc2) (dictGet_dictSet_self _ _ _)
  rw [hf2] at h2
  have hsort1 : List.insertionSort (fun a b : String => a.toList ≤ b.toList) [p1, p2]
      = [p1, p2] := by
    simp only [List.insertionSort, List.orderedInsert_nil]
    unfold List.orderedInsert
    rw [if_pos (le_of_lt hlt)]
  have hsort2 : List.insertionSort (fun a b : String => a.toList ≤ b.toList) [p2, p1]
      = [p1, p2] := by
    simp only [List.insertionSort, List.orderedInsert_nil]
    unfold List.orderedInsert
    rw [if_neg (not_le.mpr hlt)]
    rw [List.orderedInsert_nil]
  constructor
  · unfold process_files
    rw [hsort1, foldlM_option_cons _ _ _ _ _ h1, foldlM_option_cons _ _ _ _ _ h2,
      dictSet_dictSet_self]
    rfl
  · unfold process_files
    rw [hsort2, foldlM_option_cons _ _ _ _ _ h1, foldlM_option_cons _ _ _ _ _ h2,
      dictSet_dictSet_self]
    rfl

theorem finalize_row_eq (row : Row) (md st cat sub : String) (r2 : Row)
    (hp : portalStep (specializedStep (fieldListStep (tableStep (eventStep
        (descStep (normalizeAllFields (finalizeListFields row)) md) md) md))
        cat sub st) cat sub = some r2) :
    finalize_row row md st cat sub =
      some (finalizeOutput (dictSet (ajaxStep r2 st) "description_markdown"
        (PyVal.s (pyStrip md)))) := by
  unfold finalize_row
  dsimp only
  rw [hp]
  rfl

theorem finalize_si_only (name st cat sub rp md : String) (L : List String) :
    ∃ out, finalize_row (dictSet (blank_row name st cat sub rp) "script_include"
        (PyVal.l L)) md st cat sub = some out
      ∧ out.lookup "script_include" = some (pyStrip (joinCleaned L)) := by
  have hBsi : dictGet (blank_row name st cat sub rp) "script_include"
      = some (PyVal.l []) := by
    rw [dictGet_blank_row name st cat sub rp "script_include" (by decide)]
    rfl
  have hnd : ((dictSet (blank_row name st cat sub rp) "script_include"
      (PyVal.l L)).map Prod.fst).Nodup := by
    rw [map_fst_dictSet _ _ _ _ hBsi, map_fst_blank_row]
    decide
  have hmemsi : ("script_include", PyVal.l L)
      ∈ dictSet (blank_row name st cat sub rp) "script_include" (PyVal.l L) :=
    mem_dictSet_self _ _ _ _ hBsi
  have hmemcs : ("client_script", PyVal.l [])
      ∈ dictSet (blank_row name st cat sub rp) "script_include" (PyVal.l L) := by
    apply mem_dictSet_ne
    · unfold blank_row
      exact List.mem_map.mpr ⟨"client_script", by decide, rfl⟩
    · decide
  have hm2si : dictGet (normalizeAllFields (finalizeListFields
      (dictSet (blank_row name st cat sub rp) "script_include" (PyVal.l L))))
      "script_include" = some (PyVal.s (pyStrip (joinCleaned L))) := by
    rw [normalizeAllFields_get _ _ (by decide),
      finalizeListFields_get_list _ _ _ hmemsi hnd (by decide)]
    rfl
  have hm2cs : dictGet (normalizeAllFields (finalizeListFields
      (dictSet (blank_row name st cat sub rp) "script_include" (PyVal.l L))))
      "client_script" = some (PyVal.s "") := by
    rw [normalizeAllFields_get _ _ (by decide),
      finalizeListFields_get_list _ _ _ hmemcs hnd (by decide)]
    rfl
  have hr7cs : ∀ k : String, k ≠ "description" → k ≠ "client_side_type" → k ≠ "table" →
      k ≠ "field_list" → k ≠ "type_for_specialized_areas" → k ≠ "script_type" →
      dictGet (specializedStep (fieldListStep (tableStep (eventStep
          (descStep (normalizeAllFields (finalizeListFields
            (dictSet (blank_row name st cat sub rp) "script_include" (PyVal.l L))))
            md) md) md)) cat sub st) k
        = dictGet (normalizeAllFields (finalizeListFields
            (dictSet (blank_row name st cat sub rp) "script_include" (PyVal.l L)))) k := by
    intro k h1 h2 h3 h4 h5 h6
    rw [specializedStep_frame _ _ _ _ k h5 h6, fieldListStep_frame _ k h4,
      tableStep_frame _ _ k h3, eventStep_frame _ _ k h2, descStep_frame _ _ k h1]
  have hport : portalStep (specializedStep (fieldListStep (tableStep (eventStep
      (descStep (normalizeAllFields (finalizeListFields
        (dictSet (blank_row name st cat sub rp) "script_include" (PyVal.l L))))
        md) md) md)) cat sub st) cat sub
      = some (specializedStep (fieldListStep (tableStep (eventStep
        (descStep (normalizeAllFields (finalizeListFields
          (dictSet (blank_row name st cat sub rp) "script_include" (PyVal.l L))))
          md) md) md)) cat sub st) := by
    unfold portalStep
    rw [if_neg]
    rw [hr7cs "client_script" (by decide) (by decide) (by decide) (by decide) (by decide)
      (by decide), hm2cs]
    simp [pyTruthy]
  refine ⟨_, finalize_row_eq _ md st cat sub _ hport, ?_⟩
  rw [lookup_finalizeOutput _ _ (by decide),
    dictGet_dictSet_ne _ _ _ _ (by decide), ajaxStep_frame _ _ _ (by decide),
    hr7cs "script_include" (by decide) (by decide) (by decide) (by decide) (by decide)
      (by decide), hm2si]

/-- C4: for a unit with two `.js` content files both classified
`script_include` (the same list-policy field), the finalized field value
is `trim(first) ++ "\n\n" ++ trim(second)` in lexicographic path order,
whichever order the files were handed in (the loop sorts first), and a
whitespace-only file is omitted from the join; `combine_scripts` of the
client-scripts scraper merges the same way, sorting by lowercased
filename. -/
theorem c4_list_policy_merge :
    (∀ (name st cat sub rp sp md : String) (rl : List String)
        (fetch : String → String) (p1 p2 c1 c2 : String),
      p1.toList < p2.toList →
      extOf (pyLower p1) = ".js" → extOf (pyLower p2) = ".js" →
      fetch p1 = c1 → fetch p2 = c2 →
      classify_js_role sp (relOf sp p1) (pyBasename p1) c1 rl = "script_include" →
      classify_js_role sp (relOf sp p2) (pyBasename p2) c2 rl = "script_include" →
      ∃ (mid : Row) (out : List (String × String)),
        process_files sp rl fetch (blank_row name st cat sub rp) [p1, p2] = some mid
        ∧ process_files sp rl fetch (blank_row name st cat sub rp) [p2, p1] = some mid
        ∧ finalize_row mid md st cat sub = some out
        ∧ (pyStrip c1 ≠ "" → pyStrip c2 ≠ "" →
            out.lookup "script_include" = some (pyStrip c1 ++ "\n\n" ++ pyStrip c2))
        ∧ (pyStrip c1 = "" → out.lookup "script_include" = some (pyStrip c2)))
    ∧ (∀ f1 f2 a b : String,
      (pyLower f1).toList < (pyLower f2).toList →
      pyStrip a ≠ "" → pyStrip b ≠ "" →
      combine_scripts [(f1, a), (f2, b)] = pyStrip a ++ "\n\n" ++ pyStrip b
      ∧ combine_scripts [(f2, b), (f1, a)] = pyStrip a ++ "\n\n" ++ pyStrip b) := by
  constructor
  · intro name st cat sub rp sp md rl fetch p1 p2 c1 c2 hlt hx1 hx2 hf1 hf2 hc1 hc2
    obtain ⟨hpf1, hpf2⟩ := process_two_si name st cat sub rp sp rl fetch p1 p2 c1 c2
      hlt hx1 hx2 hf1 hf2 hc1 hc2
    obtain ⟨out, hfin, hlook⟩ := finalize_si_only name st cat sub rp md
      (stripToList c1 ++ stripToList c2)
    refine ⟨_, out, hpf1, hpf2, hfin, ?_, ?_⟩
    · intro hn1 hn2
      rw [hlook]
      rw [show stripToList c1 = [pyStrip c1] from by simp [stripToList, hn1],
        show stripToList c2 = [pyStrip c2] from by simp [stripToList, hn2]]
      have hj : joinCleaned ([pyStrip c1] ++ [pyStrip c2])
          = pyStrip c1 ++ "\n\n" ++ pyStrip c2 := by
        unfold joinCleaned
        rw [List.cons_append, List.nil_append, List.map_cons, List.map_cons, List.map_nil,
          strip_strip, strip_strip, List.filter_cons, List.filter_cons]
        simp [hn1, hn2, pyJoin]
      rw [hj, strip_join_pair _ _ (strip_strip c1) (strip_strip c2) hn1 hn2]
    · intro hz1
      rw [hlook]
      rw [show stripToList c1 = [] from by simp [stripToList, hz1], List.nil_append]
      by_cases hz2 : pyStrip c2 = ""
      · rw [show stripToList c2 = [] from by simp [stripToList, hz2]]
        rw [show pyStrip (joinCleaned []) = "" from rfl, hz2]
      · rw [show stripToList c2 = [pyStrip c2] from by simp [stripToList, hz2]]
        have hj : joinCleaned [pyStrip c2] = pyStrip c2 := by
          unfold joinCleaned
          rw [List.map_cons, List.map_nil, strip_strip, List.filter_cons]
          simp [hz2, pyJoin]
        rw [hj, strip_strip]
  · intro f1 f2 a b hlt hna hnb
    have hs1 : List.insertionSort
        (fun x y : String × String => (pyLower x.1).toList ≤ (pyLower y.1).toList)
        [(f1, a), (f2, b)] = [(f1, a), (f2, b)] := by
      simp only [List.insertionSort, List.orderedInsert_nil]
      unfold List.orderedInsert
      rw [if_pos (le_of_lt hlt)]
    have hs2 : List.insertionSort
        (fun x y : String × String => (pyLower x.1).toList ≤ (pyLower y.1).toList)
        [(f2, b), (f1, a)] = [(f1, a), (f2, b)] := by
      simp only [List.insertionSort, List.orderedInsert_nil]
      unfold List.orderedInsert
      rw [if_neg (not_le.mpr hlt), List.orderedInsert_nil]
    constructor
    · unfold combine_scripts
      rw [if_neg (by simp), hs1]
      rw [List.map_cons, List.map_cons, List.map_nil, List.filter_cons, List.filter_cons]
      simp [hna, hnb, pyJoin]
    · unfold combine_scripts
      rw [if_neg (by simp), hs2]
      rw [List.map_cons, List.map_cons, List.map_nil, List.filter_cons, List.filter_cons]
      simp [hna, hnb, pyJoin]

set_option maxRecDepth 4000 in
/-- C4 (witness): two script-include files of one unit, fed in either
order, merge into the same record whose `script_include` value is the
blank-line join of the trimmed bodies in path order. -/
theorem c4_witness :
    ∃ (mid : Row) (out : List (String × String)),
      process_files "Server-Side Components/Script Includes/U" []
        (fun p => if p = "Server-Side Components/Script Includes/U/a_util.js"
          then " var A = 1; "
          else if p = "Server-Side Components/Script Includes/U/b_util.js"
          then "var B = 2;" else "")
        (blank_row "U" "Script Includes" "Server-Side Components" "Script Includes" "rp")
        ["Server-Side Components/Script Includes/U/a_util.js",
         "Server-Side Components/Script Includes/U/b_util.js"] = some mid
      ∧ process_files "Server-Side Components/Script Includes/U" []
        (fun p => if p = "Server-Side Components/Script Includes/U/a_util.js"
          then " var A = 1; "
          else if p = "Server-Side Components/Script Includes/U/b_util.js"
          then "var B = 2;" else "")
        (blank_row "U" "Script Includes" "Server-Side Components" "Script Includes" "rp")
        ["Server-Side Components/Script Includes/U/b_util.js",
         "Server-Side Components/Script Includes/U/a_util.js"] = some mid
      ∧ finalize_row mid "" "Script Includes" "Server-Side Components" "Script Includes"
          = some out
      ∧ (pyStrip " var A = 1; " ≠ "" → pyStrip "var B = 2;" ≠ "" →
          out.lookup "script_include"
            = some (pyStrip " var A = 1; " ++ "\n\n" ++ pyStrip "var B = 2;"))
      ∧ (pyStrip " var A = 1; " = "" →
          out.lookup "script_include" = some (pyStrip "var B = 2;")) :=
  c4_list_policy_merge.1 "U" "Script Includes" "Server-Side Components" "Script Includes"
    "rp" "Server-Side Components/Script Includes/U" "" []
    (fun p => if p = "Server-Side Components/Script Includes/U/a_util.js"
      then " var A = 1; "
      else if p = "Server-Side Components/Script Includes/U/b_util.js"
      then "var B = 2;" else "")
    "Server-Side Components/Script Includes/U/a_util.js"
    "Server-Side Components/Script Includes/U/b_util.js"
    " var A = 1; " "var B = 2;"
    (by decide) (by decide) (by decide) (by decide) (by decide) (by decide) (by decide)
